import Mathlib

/-!
A shallow embedding of the tic-tac-toe rules engine in `src/TicTacToe.js`
(class `TicTacToe`, version 1.0.2).  Pure JS methods become Lean functions;
the mutable instance fields become an explicit `GameState` record that every
mutating operation takes and returns.  JS exceptions that the source catches
internally are modelled as values (`Option`/`Except`); `importState`, whose
exception escapes to the caller while mutations may already have happened,
returns the post-call state together with an optional error.

Modelling conventions, noted where they matter:
* JS numbers reaching `#validateMove` can be non-integers; they are modelled
  by `JVal` (an integer or some other value).  Board sizes and win lengths
  are modelled as `Nat`; non-integer or negative configuration values are
  rejected by the same `validateConfig` guard in the source.
* `Date.now()` timestamps on move records are informational only (never read
  by the engine) and are omitted from `MoveRecord`.
* The private field `#undoStack` of the source is declared and reset but
  never read or pushed anywhere; it is omitted.
* `String.prototype.toLowerCase` is modelled on the ASCII range (`jsToLower`),
  which is the only range the engine's algebraic parsing accepts anyway.
-/

namespace TTT


/-- A JS value flowing into coordinate positions: either an integer number
(`Number.isInteger` holds) or any other value (non-integer number, string,
`undefined`, ...), which every integer check rejects. -/
inductive JVal where
  | int (n : Int)
  | other
deriving DecidableEq

/-- ASCII model of `String.prototype.toLowerCase` applied to one character. -/
def jsToLower (c : Char) : Char :=
  if 65 ≤ c.toNat ∧ c.toNat ≤ 90 then Char.ofNat (c.toNat + 32) else c

/-- The JS whitespace characters skipped by `parseInt` (WhiteSpace and
LineTerminator productions). -/
def jsWhitespace (c : Char) : Bool :=
  [' ', '\t', '\n', '\r', '\x0b', '\x0c'].contains c
    || [0xa0, 0x1680, 0x2028, 0x2029, 0x202f, 0x205f, 0x3000, 0xfeff].contains c.toNat
    || (0x2000 ≤ c.toNat && c.toNat ≤ 0x200a)

/-- Numeric value of a list of decimal digit characters. -/
def digitsVal (l : List Char) : Nat :=
  l.foldl (fun acc c => acc * 10 + (c.toNat - 48)) 0

/-- The maximal leading run of decimal digits, as a number; `none` when there
is no leading digit (`parseInt` returns `NaN` there). -/
def leadingDigits (l : List Char) : Option Nat :=
  let ds := l.takeWhile (·.isDigit)
  if ds.isEmpty then none else some (digitsVal ds)

/-- Model of `parseInt(s, 10)`: skip leading whitespace, read an optional
sign, then the maximal digit run; everything after it is ignored.  `none`
models `NaN`. -/
def parseIntJS (s : String) : Option Int :=
  match s.data.dropWhile jsWhitespace with
  | '-' :: rest => (leadingDigits rest).map (fun n => -(n : Int))
  | '+' :: rest => (leadingDigits rest).map (fun n => (n : Int))
  | l => (leadingDigits l).map (fun n => (n : Int))

/-- `TicTacToe.GAME_STATUSES`. -/
inductive GameStatus where
  | ongoing
  | finished
  | draw
deriving DecidableEq

/-- The configuration record (`#config`). -/
structure Config where
  boardSize : Nat
  winLength : Nat
  players : List String
  startingPlayer : String
deriving DecidableEq

/-- `TicTacToe.DEFAULT_CONFIG`. -/
def defaultConfig : Config :=
  { boardSize := 3, winLength := 3, players := ["X", "O"], startingPlayer := "X" }

/-- `TicTacToe.DIRECTIONS`: horizontal, vertical, diagonal down-right,
diagonal down-left. -/
def DIRECTIONS : List (Int × Int) := [(0, 1), (1, 0), (1, 1), (1, -1)]

/-- A board cell position, as the `{row, col}` objects in winning lines. -/
structure Pos where
  row : Nat
  col : Nat
deriving DecidableEq

/-- A move record as built by `#executeMove` (the informational `timestamp`
field is omitted; it is never read by the engine). -/
structure MoveRecord where
  row : Nat
  col : Nat
  player : String
  algebraic : String
  moveNumber : Nat
deriving DecidableEq

/-- `#board`: a list of rows, each cell `null` (`none`) or a player symbol. -/
abbrev Board := List (List (Option String))

/-- Error kinds, mirroring the error classes of the source. -/
inductive ErrKind where
  | configuration
  | invalidMove
  | gameState
deriving DecidableEq

/-- The JS class name of each error kind (`error.constructor.name`). -/
def errName : ErrKind → String
  | .configuration => "ConfigurationError"
  | .invalidMove => "InvalidMoveError"
  | .gameState => "GameStateError"

/-- A thrown engine error: kind plus message. -/
structure TErr where
  kind : ErrKind
  msg : String
deriving DecidableEq

/-- The mutable instance fields of a `TicTacToe` object (minus the dead
`#undoStack`, see the file header). -/
structure GameState where
  board : Board
  currentPlayer : String
  moveHistory : List MoveRecord
  gameStatus : GameStatus
  winner : Option String
  winningLine : Option (List Pos)
  moveCount : Nat
  redoStack : List MoveRecord
  config : Config
deriving DecidableEq

/-- The result object `move` (and `redo`) returns.  The source adds an
`isGameOver` convenience flag on success only and omits the status fields on
the empty-redo-stack failure; those presentational differences are not
modelled. -/
structure MoveResult where
  success : Bool
  error : Option String
  errorType : Option String
  move : Option MoveRecord
  gameStatus : GameStatus
  winner : Option String
  winningLine : Option (List Pos)
deriving DecidableEq

/-- The result object `undo` returns. -/
structure UndoResult where
  success : Bool
  error : Option String
  errorType : Option String
  move : Option MoveRecord
  gameStatus : Option GameStatus
  currentPlayer : Option String
deriving DecidableEq

/-- Reading `#board[r][c]` (in-bounds wherever the source reads it). -/
def getCell (b : Board) (r c : Nat) : Option String :=
  (b.getD r []).getD c none

/-- Writing `#board[r][c] = v` (in-bounds wherever the source writes it). -/
def setCell (b : Board) (r c : Nat) (v : Option String) : Board :=
  b.set r ((b.getD r []).set c v)

/-- The all-empty board built by `reset`. -/
def mkBoard (n : Nat) : Board :=
  List.replicate n (List.replicate n none)

/-- `#toAlgebraic`. -/
def toAlgebraic (row col : Nat) : String :=
  String.mk [Char.ofNat (97 + col)] ++ toString (row + 1)

/-- `#countEmptyCells`. -/
def countEmptyCells (b : Board) : Nat :=
  (b.flatten.filter (fun cell => cell == none)).length

/-- The body of the `for (let i = 0; i < length; i++)` loop of `#getLine` at
loop counter `i` with `rem = length - i` iterations left (the structural
fuel); the `break` on an out-of-bounds step becomes returning `[]`. -/
def getLineGo (size : Nat) (startRow startCol : Nat) (dRow dCol : Int) (i : Nat) :
    Nat → List Pos
  | 0 => []
  | rem + 1 =>
    let row : Int := (startRow : Int) + (i : Int) * dRow
    let col : Int := (startCol : Int) + (i : Int) * dCol
    if row < 0 ∨ (size : Int) ≤ row ∨ col < 0 ∨ (size : Int) ≤ col then []
    else ⟨row.toNat, col.toNat⟩ :: getLineGo size startRow startCol dRow dCol (i + 1) rem

/-- `#getLine`. -/
def getLine (size : Nat) (startRow startCol : Nat) (dRow dCol : Int) (length : Nat) :
    List Pos :=
  getLineGo size startRow startCol dRow dCol 0 length

/-- `#checkWin`: scan cells row-major, skip falsy cells (`null` or the empty
string), and return the first direction whose line is full length and
uniformly the scanned player.  `List.findSome?` models first-match-returns. -/
def checkWin (cfg : Config) (b : Board) : Option (String × List Pos) :=
  let size := cfg.boardSize
  let winLength := cfg.winLength
  (List.range size).findSome? fun row =>
    (List.range size).findSome? fun col =>
      match getCell b row col with
      | none => none
      | some player =>
        if player = "" then none
        else
          DIRECTIONS.findSome? fun d =>
            let line := getLine size row col d.1 d.2 winLength
            if line.length == winLength
                && line.all (fun pos => getCell b pos.row pos.col == some player) then
              some (player, line)
            else none

/-- `#updateGameStatus`. -/
def updateGameStatus (g : GameState) : GameState :=
  match checkWin g.config g.board with
  | some (w, line) =>
    { g with gameStatus := .finished, winner := some w, winningLine := some line }
  | none =>
    if countEmptyCells g.board = 0 then
      { g with gameStatus := .draw, winner := none, winningLine := none }
    else
      { g with gameStatus := .ongoing, winner := none, winningLine := none }

/-- `#switchPlayer`.  `indexOf` returning `-1` for an absent player makes the
next index `0`; with an empty player list (impossible under a validated
configuration) the source would read `undefined`, modelled by keeping the
current player. -/
def switchPlayer (g : GameState) : GameState :=
  let players := g.config.players
  let idxSucc : Nat :=
    match players.findIdx? (· == g.currentPlayer) with
    | some i => i + 1
    | none => 0
  { g with currentPlayer := players.getD (idxSucc % players.length) g.currentPlayer }

/-- `#validateConfig`, as a function of the configuration record.  The
`new Set(players).size !== players.length` duplicate test is the complement
of `players.Nodup`. -/
def validateConfig (cfg : Config) : Option TErr :=
  if ¬ (3 ≤ cfg.boardSize ∧ cfg.boardSize ≤ 10) then
    some ⟨.configuration, "Board size must be an integer between 3 and 10"⟩
  else if ¬ (3 ≤ cfg.winLength ∧ cfg.winLength ≤ cfg.boardSize) then
    some ⟨.configuration, s!"Win length must be an integer between 3 and {cfg.boardSize}"⟩
  else if cfg.players.length < 2 then
    some ⟨.configuration, "Must have at least 2 players"⟩
  else if ¬ cfg.players.Nodup then
    some ⟨.configuration, "Player symbols must be unique"⟩
  else if ¬ cfg.players.all (fun p => p ≠ "") then
    some ⟨.configuration, "Player symbols must be non-empty strings"⟩
  else if ¬ cfg.players.contains cfg.startingPlayer then
    some ⟨.configuration, "Starting player must be one of the configured players"⟩
  else none

/-- `#fromAlgebraic`. -/
def fromAlgebraic (cfg : Config) (s : String) : Except TErr (Nat × Nat) :=
  if s.length < 2 then .error ⟨.invalidMove, "Invalid algebraic notation format"⟩
  else
    match s.data with
    | [] => .error ⟨.invalidMove, "Invalid algebraic notation format"⟩
    | ch :: rest =>
      let colChar := jsToLower ch
      if colChar.toNat < 97 ∨ 122 < colChar.toNat then
        .error ⟨.invalidMove, "Column must be a letter (a-z)"⟩
      else
        let col : Nat := colChar.toNat - 97
        match parseIntJS (String.mk rest) with
        | none => .error ⟨.invalidMove, "Row must be a positive integer"⟩
        | some n =>
          let row : Int := n - 1
          if row < 0 then .error ⟨.invalidMove, "Row must be a positive integer"⟩
          else if cfg.boardSize ≤ col ∨ (cfg.boardSize : Int) ≤ row then
            .error ⟨.invalidMove, s!"Position {s} is outside {cfg.boardSize}×{cfg.boardSize} board"⟩
          else .ok (row.toNat, col)

/-- The three JS shapes a call `move(row, col)` distinguishes, in the order
`#parseMove` tests them: an object with `row`/`col` fields, a string, a pair
of numbers; `otherInput` stands for every other argument shape. -/
inductive MoveInput where
  | obj (row col : JVal)
  | alg (s : String)
  | coords (row col : JVal)
  | otherInput
deriving DecidableEq

/-- `#parseMove`. -/
def parseMove (cfg : Config) : MoveInput → Except TErr (JVal × JVal)
  | .obj r c => .ok (r, c)
  | .alg s => (fromAlgebraic cfg s).map (fun rc => (.int rc.1, .int rc.2))
  | .coords r c =>
    match r, c with
    | .int a, .int b => .ok (.int a, .int b)
    | _, _ =>
      .error ⟨.invalidMove,
        "Invalid move format. Use (row, col), \"algebraic\", or \x7brow, col\x7d"⟩
  | .otherInput =>
    .error ⟨.invalidMove,
      "Invalid move format. Use (row, col), \"algebraic\", or \x7brow, col\x7d"⟩

/-- `#validateMove`: the four checks in source order, first failure winning. -/
def validateMove (cfg : Config) (b : Board) (status : GameStatus) (row col : JVal) :
    Option TErr :=
  match row, col with
  | .int r, .int c =>
    if r < 0 ∨ (cfg.boardSize : Int) ≤ r ∨ c < 0 ∨ (cfg.boardSize : Int) ≤ c then
      some ⟨.invalidMove, s!"Move out of bounds. Board size is {cfg.boardSize}×{cfg.boardSize}"⟩
    else
      match getCell b r.toNat c.toNat with
      | some p =>
        some ⟨.invalidMove,
          s!"Square {toAlgebraic r.toNat c.toNat} is already occupied by {p}"⟩
      | none =>
        if status ≠ .ongoing then
          some ⟨.gameState, s!"Game is {statusName status}. Cannot make moves."⟩
        else none
  | _, _ => some ⟨.invalidMove, "Row and column must be integers"⟩
where
  statusName : GameStatus → String
    | .ongoing => "ongoing"
    | .finished => "finished"
    | .draw => "draw"

/-- The failure result `move` builds in its `catch` block. -/
def failResult (g : GameState) (e : TErr) : MoveResult :=
  { success := false, error := some e.msg, errorType := some (errName e.kind),
    move := none, gameStatus := g.gameStatus, winner := g.winner,
    winningLine := g.winningLine }

/-- `#executeMove` on a validated in-bounds move. -/
def executeMove (g : GameState) (row col : Nat) : GameState × MoveResult :=
  let g1 : GameState := { g with redoStack := [] }
  let g2 : GameState := { g1 with board := setCell g1.board row col (some g1.currentPlayer) }
  let rec1 : MoveRecord :=
    { row := row, col := col, player := g2.currentPlayer,
      algebraic := toAlgebraic row col, moveNumber := g2.moveCount + 1 }
  let g3 : GameState :=
    { g2 with moveHistory := g2.moveHistory ++ [rec1], moveCount := g2.moveCount + 1 }
  let g4 := updateGameStatus g3
  let g5 := if g4.gameStatus = .ongoing then switchPlayer g4 else g4
  (g5, { success := true, error := none, errorType := none, move := some rec1,
         gameStatus := g5.gameStatus, winner := g5.winner, winningLine := g5.winningLine })

/-- `move`: parse, validate, execute, catching every thrown error into a
failure result (the method never raises). -/
def move (g : GameState) (input : MoveInput) : GameState × MoveResult :=
  match parseMove g.config input with
  | .error e => (g, failResult g e)
  | .ok (r, c) =>
    match validateMove g.config g.board g.gameStatus r c with
    | some e => (g, failResult g e)
    | none =>
      match r, c with
      | .int a, .int b => executeMove g a.toNat b.toNat
      | _, _ => (g, failResult g ⟨.invalidMove, "Row and column must be integers"⟩)
      -- the last branch is unreachable: validateMove rejects non-integers

/-- `undo`. -/
def undo (g : GameState) : GameState × UndoResult :=
  match g.moveHistory.getLast? with
  | none =>
    (g, { success := false, error := some "No moves to undo",
          errorType := some "GameStateError", move := none, gameStatus := none,
          currentPlayer := none })
  | some lastMove =>
    let g1 : GameState :=
      { g with moveHistory := g.moveHistory.dropLast,
               board := setCell g.board lastMove.row lastMove.col none,
               currentPlayer := lastMove.player,
               moveCount := g.moveCount - 1 }
    let g2 := updateGameStatus g1
    let g3 : GameState := { g2 with redoStack := lastMove :: g2.redoStack }
    (g3, { success := true, error := none, errorType := none, move := some lastMove,
           gameStatus := some g3.gameStatus, currentPlayer := some g3.currentPlayer })

/-- `redo`: pop the stack, then replay through the full `move` pipeline. -/
def redo (g : GameState) : GameState × MoveResult :=
  match g.redoStack with
  | [] =>
    (g, { success := false, error := some "No moves to redo",
          errorType := some "GameStateError", move := none,
          gameStatus := g.gameStatus, winner := g.winner,
          winningLine := g.winningLine })
  | moveToRedo :: rest =>
    move { g with redoStack := rest }
      (.coords (.int moveToRedo.row) (.int moveToRedo.col))

/-- `reset` (also the tail of the constructor, after `#validateConfig`). -/
def initState (cfg : Config) : GameState :=
  { board := mkBoard cfg.boardSize, currentPlayer := cfg.startingPlayer,
    moveHistory := [], gameStatus := .ongoing, winner := none, winningLine := none,
    moveCount := 0, redoStack := [], config := cfg }

/-- `reset` as an operation on an existing instance. -/
def reset (g : GameState) : GameState :=
  initState g.config

/-- `isLegalMove`: the parse+validate pipeline with every failure reduced to
`false`. -/
def isLegalMove (g : GameState) (input : MoveInput) : Bool :=
  match parseMove g.config input with
  | .error _ => false
  | .ok (r, c) => (validateMove g.config g.board g.gameStatus r c).isNone

/-- `stats.canRedo`. -/
def canRedo (g : GameState) : Bool :=
  decide (0 < g.redoStack.length)


/-! ### Specification-side definitions (refinement targets) and auxiliary
state-machine notions used by the claims -/

/-- Spec-side reading of `#validateMove` for claim C5, written from the spec's
words: the four checks in order, first failure winning, reporting only the
error kind. -/
def specValidateKind (cfg : Config) (b : Board) (status : GameStatus) (row col : JVal) :
    Option ErrKind :=
  match row, col with
  | .int r, .int c =>
    if ¬ (0 ≤ r ∧ r < (cfg.boardSize : Int) ∧ 0 ≤ c ∧ c < (cfg.boardSize : Int)) then
      some .invalidMove
    else if (getCell b r.toNat c.toNat).isSome then some .invalidMove
    else if status ≠ .ongoing then some .gameState
    else none
  | _, _ => some .invalidMove

/-- An integer coordinate lies on the board. -/
def specInB (size : Nat) (x : Int) : Bool :=
  decide (0 ≤ x) && decide (x < (size : Int))

/-- Spec-side candidate line for claim C1: the `len` cells starting at
`(r, c)` in direction `d`, or `none` when the candidate runs off the board
(discarded, not padded). -/
def specCandidateLine (size : Nat) (r c : Nat) (d : Int × Int) (len : Nat) :
    Option (List Pos) :=
  let ps : List (Int × Int) :=
    (List.range len).map fun (i : Nat) =>
      ((r : Int) + (i : Int) * d.1, (c : Int) + (i : Int) * d.2)
  if ps.all (fun p => specInB size p.1 && specInB size p.2) then
    some (ps.map fun p => ⟨p.1.toNat, p.2.toNat⟩)
  else none

/-- Spec-side scan order for claim C1: cells in row-major order, then the four
directions in their listed order. -/
def specScanOrder (size : Nat) : List (Nat × Nat × (Int × Int)) :=
  (List.range size).flatMap fun r =>
    (List.range size).flatMap fun c =>
      DIRECTIONS.map fun d => (r, c, d)

/-- Spec-side first-match win search for claim C1, written from the spec's
words: the first candidate line (in scan order) of exactly `winLength`
in-bounds cells all holding one player. -/
def specFirstWin (cfg : Config) (b : Board) : Option (String × List Pos) :=
  (specScanOrder cfg.boardSize).findSome? fun x =>
    match x with
    | (r, c, d) =>
      match getCell b r c with
      | none => none
      | some p =>
        match specCandidateLine cfg.boardSize r c d cfg.winLength with
        | none => none
        | some line =>
          if line.all (fun q => getCell b q.row q.col == some p) then some (p, line)
          else none

/-- No board cell holds the empty-string symbol (true of every state built
from a validated configuration; the source's falsy-cell test `!player` makes
`""` behave like an empty cell in `#checkWin`). -/
def noEmptySymbols (b : Board) : Bool :=
  b.all fun row => row.all fun cell => cell != some ""

/-- A string of decimal digits denoting a positive integer — the literal
reading of the claim C8 phrase "the remaining characters are a positive
integer". -/
def isPosIntLiteral (s : String) : Bool :=
  !s.isEmpty && s.data.all (·.isDigit) && decide (0 < digitsVal s.data)

/-- Spec-side reading of `#fromAlgebraic` for the amended claim C8: parsing
succeeds iff the string has ≥ 2 characters, its lowercased leading character
is a letter a–z, `parseInt` extracts an integer ≥ 1 from the remaining
characters (leading whitespace/sign allowed, trailing garbage ignored), and
the coordinates fit the board. -/
def specFromAlgebraic (cfg : Config) (s : String) : Option (Nat × Nat) :=
  match s.data with
  | [] => none
  | ch :: rest =>
    if s.length < 2 then none
    else
      let lc := jsToLower ch
      if lc.toNat < 97 ∨ 122 < lc.toNat then none
      else
        match parseIntJS (String.mk rest) with
        | none => none
        | some n =>
          if n < 1 then none
          else
            let row := (n - 1).toNat
            let col := lc.toNat - 97
            if cfg.boardSize ≤ row ∨ cfg.boardSize ≤ col then none
            else some (row, col)

/-- A partial configuration as found in an imported state: any subset of the
four fields (`{...this.#config, ...state.config}` merges them over the
current ones). -/
structure PartialConfig where
  boardSize : Option Nat
  winLength : Option Nat
  players : Option (List String)
  startingPlayer : Option String
deriving DecidableEq

/-- The spread-merge `{...this.#config, ...state.config}`. -/
def mergeConfig (c : Config) (p : PartialConfig) : Config :=
  { boardSize := p.boardSize.getD c.boardSize,
    winLength := p.winLength.getD c.winLength,
    players := p.players.getD c.players,
    startingPlayer := p.startingPlayer.getD c.startingPlayer }

/-- A typed model of the argument of `importState`: `none` fields are absent
properties.  (A non-object argument, rejected by the very first check of the
source before any mutation, is not representable and not needed by the
claims.) -/
structure ImportInput where
  board : Option Board
  currentPlayer : Option String
  moveHistory : Option (List MoveRecord)
  gameStatus : Option GameStatus
  config : Option PartialConfig
  winner : Option String
  winningLine : Option (List Pos)
  moveCount : Option Nat
deriving DecidableEq

/-- `#validateImportedState`.  The final game-status membership check of the
source is always true in this typed model (`GameStatus` is an enumeration). -/
def validateImportedState (g : GameState) : Option TErr :=
  if g.board.length ≠ g.config.boardSize then
    some ⟨.configuration, "Invalid board dimensions"⟩
  else if ¬ g.board.all (fun row => row.length == g.config.boardSize) then
    some ⟨.configuration, "Invalid board row dimensions"⟩
  else if ¬ g.config.players.contains g.currentPlayer then
    some ⟨.configuration, "Invalid current player"⟩
  else none

/-- `importState`, modelled statement by statement in source order: the check
failures after the configuration merge leave the mutations made so far in
place, exactly as the JS `catch`-and-rethrow does.  The returned state is the
engine state after the call; the second component is the raised
`ConfigurationError`, if any. -/
def importState (g : GameState) (s : ImportInput) : GameState × Option TErr :=
  if s.board.isNone then
    (g, some ⟨.configuration, "Failed to import state: Missing required property: board"⟩)
  else if s.currentPlayer.isNone then
    (g, some ⟨.configuration, "Failed to import state: Missing required property: currentPlayer"⟩)
  else if s.moveHistory.isNone then
    (g, some ⟨.configuration, "Failed to import state: Missing required property: moveHistory"⟩)
  else if s.gameStatus.isNone then
    (g, some ⟨.configuration, "Failed to import state: Missing required property: gameStatus"⟩)
  else if s.config.isNone then
    (g, some ⟨.configuration, "Failed to import state: Missing required property: config"⟩)
  else
    let g1 : GameState :=
      { g with config := mergeConfig g.config (s.config.getD ⟨none, none, none, none⟩) }
    match validateConfig g1.config with
    | some e => (g1, some ⟨.configuration, "Failed to import state: " ++ e.msg⟩)
    | none =>
      let g2 : GameState :=
        { g1 with
          board := s.board.getD [],
          currentPlayer := s.currentPlayer.getD "",
          moveHistory := s.moveHistory.getD [],
          gameStatus := s.gameStatus.getD .ongoing,
          winner := match s.winner with | some "" => none | w => w,
          winningLine := s.winningLine,
          moveCount := s.moveCount.getD 0,
          redoStack := [] }
      match validateImportedState g2 with
      | some e => (g2, some ⟨.configuration, "Failed to import state: " ++ e.msg⟩)
      | none => (g2, none)

/-- Run a list of `(row, col)` moves, requiring every one to succeed. -/
def applyMoves (g : GameState) : List (Nat × Nat) → Option GameState
  | [] => some g
  | (r, c) :: rest =>
    let res := move g (.coords (.int (r : Int)) (.int (c : Int)))
    if res.2.success then applyMoves res.1 rest else none

/-- Run `n` undos, requiring every one to succeed. -/
def undoAll : Nat → GameState → Option GameState
  | 0, g => some g
  | n + 1, g =>
    let res := undo g
    if res.2.success then undoAll n res.1 else none

/-- Every instance field except the redo stack (the fields `redo` replays
through `move` cannot depend on). -/
structure Core where
  board : Board
  currentPlayer : String
  moveHistory : List MoveRecord
  gameStatus : GameStatus
  winner : Option String
  winningLine : Option (List Pos)
  moveCount : Nat
  config : Config
deriving DecidableEq

/-- Project a state to its non-redo-stack fields. -/
def GameState.core (g : GameState) : Core :=
  ⟨g.board, g.currentPlayer, g.moveHistory, g.gameStatus, g.winner, g.winningLine,
   g.moveCount, g.config⟩

/-- The board is a `boardSize × boardSize` grid. -/
def Shape (cfg : Config) (b : Board) : Prop :=
  b.length = cfg.boardSize ∧ ∀ row ∈ b, row.length = cfg.boardSize

/-- The status/winner/winningLine fields agree with a fresh recomputation
(holds after construction and after every mutation of the source, which ends
in `#updateGameStatus`). -/
def Canonical (g : GameState) : Prop :=
  updateGameStatus g = g

/-- The number of occupied cells of a board. -/
def occupiedCount (b : Board) : Nat :=
  (b.flatten.filter (fun cell => cell.isSome)).length

/-- The number of occupied cells of one row. -/
def rowOcc (l : List (Option String)) : Nat :=
  (l.filter (fun cell => cell.isSome)).length

/-- The cells targeted by the move history, in order. -/
def histCells (g : GameState) : List (Nat × Nat) :=
  g.moveHistory.map fun m => (m.row, m.col)

/-- The inductive invariant behind claim C6: history, count and occupied
cells stay in lock step. -/
structure CountInv (g : GameState) : Prop where
  shape : Shape g.config g.board
  count_eq : g.moveCount = g.moveHistory.length
  occ_eq : occupiedCount g.board = g.moveCount
  mem_bounds : ∀ m ∈ g.moveHistory, m.row < g.config.boardSize ∧ m.col < g.config.boardSize
  nodup : (histCells g).Nodup
  mem_occ : ∀ rc ∈ histCells g, (getCell g.board rc.1 rc.2).isSome = true

/-- States reachable from construction (or an explicit `reset`) by the three
mutating operations of claim C6. -/
inductive Reachable : GameState → Prop where
  | init (cfg : Config) : validateConfig cfg = none → Reachable (initState cfg)
  | reset {g : GameState} : Reachable g → Reachable (reset g)
  | mv {g : GameState} (input : MoveInput) : Reachable g → Reachable (move g input).1
  | un {g : GameState} : Reachable g → Reachable (undo g).1
  | re {g : GameState} : Reachable g → Reachable (redo g).1

/-- The index of the starting player in the configured player order (claim
C7's "starting offset"). -/
def startOffset (cfg : Config) : Nat :=
  cfg.players.findIdx (· == cfg.startingPlayer)

/-- A well-formed exported state whose embedded configuration is invalid
(`boardSize` 99): importing it fails, after the configuration has already
been merged into the engine. -/
def importFailInput : ImportInput :=
  { board := some (mkBoard 3), currentPlayer := some "X", moveHistory := some [],
    gameStatus := some .ongoing, config := some ⟨some 99, none, none, none⟩,
    winner := none, winningLine := none, moveCount := none }

/-! ### Projection helpers for the state transformers -/

theorem updateGameStatus_board (g : GameState) : (updateGameStatus g).board = g.board := by
  unfold updateGameStatus
  split
  · rfl
  · split <;> rfl

theorem updateGameStatus_config (g : GameState) : (updateGameStatus g).config = g.config := by
  unfold updateGameStatus
  split
  · rfl
  · split <;> rfl

theorem updateGameStatus_currentPlayer (g : GameState) :
    (updateGameStatus g).currentPlayer = g.currentPlayer := by
  unfold updateGameStatus
  split
  · rfl
  · split <;> rfl

theorem updateGameStatus_moveHistory (g : GameState) :
    (updateGameStatus g).moveHistory = g.moveHistory := by
  unfold updateGameStatus
  split
  · rfl
  · split <;> rfl

theorem updateGameStatus_moveCount (g : GameState) :
    (updateGameStatus g).moveCount = g.moveCount := by
  unfold updateGameStatus
  split
  · rfl
  · split <;> rfl

theorem updateGameStatus_redoStack (g : GameState) :
    (updateGameStatus g).redoStack = g.redoStack := by
  unfold updateGameStatus
  split
  · rfl
  · split <;> rfl

theorem switchPlayer_eq (g : GameState) :
    ∃ p, switchPlayer g = { g with currentPlayer := p } := by
  exact ⟨_, rfl⟩

theorem switchPlayer_board (g : GameState) : (switchPlayer g).board = g.board := rfl

theorem switchPlayer_config (g : GameState) : (switchPlayer g).config = g.config := rfl

theorem switchPlayer_moveHistory (g : GameState) :
    (switchPlayer g).moveHistory = g.moveHistory := rfl

theorem switchPlayer_moveCount (g : GameState) :
    (switchPlayer g).moveCount = g.moveCount := rfl

theorem switchPlayer_redoStack (g : GameState) :
    (switchPlayer g).redoStack = g.redoStack := rfl

theorem switchPlayer_gameStatus (g : GameState) :
    (switchPlayer g).gameStatus = g.gameStatus := rfl

theorem switchPlayer_winner (g : GameState) : (switchPlayer g).winner = g.winner := rfl

theorem switchPlayer_winningLine (g : GameState) :
    (switchPlayer g).winningLine = g.winningLine := rfl

theorem executeMove_success (g : GameState) (r c : Nat) :
    (executeMove g r c).2.success = true := rfl

theorem executeMove_fst_redoStack (g : GameState) (r c : Nat) :
    (executeMove g r c).1.redoStack = [] := by
  show (if _ then _ else _ : GameState).redoStack = []
  split
  · rw [switchPlayer_redoStack, updateGameStatus_redoStack]
  · rw [updateGameStatus_redoStack]

/-- A failed `move` call leaves the state untouched and reports an error
message with its kind; a succeeded one went through `executeMove` on
in-bounds integer coordinates whose cell was empty while the game was
ongoing. -/
theorem move_fail_state (g : GameState) (input : MoveInput)
    (h : (move g input).2.success = false) : (move g input).1 = g := by
  unfold move at h ⊢
  cases hp : parseMove g.config input with
  | error e => simp [hp]
  | ok rc =>
    obtain ⟨r, c⟩ := rc
    cases hv : validateMove g.config g.board g.gameStatus r c with
    | some e => simp [hp, hv]
    | none =>
      cases r with
      | int a =>
        cases c with
        | int b =>
          exfalso
          rw [hp] at h
          simp only [hv] at h
          exact absurd h (by simp [executeMove_success])
        | other => simp [hp, hv]
      | other => simp [hp, hv]

theorem move_fail_result (g : GameState) (input : MoveInput)
    (h : (move g input).2.success = false) :
    (move g input).2.error.isSome = true ∧ (move g input).2.errorType.isSome = true := by
  unfold move at h ⊢
  cases hp : parseMove g.config input with
  | error e => simp [hp, failResult]
  | ok rc =>
    obtain ⟨r, c⟩ := rc
    cases hv : validateMove g.config g.board g.gameStatus r c with
    | some e => simp [hp, hv, failResult]
    | none =>
      cases r with
      | int a =>
        cases c with
        | int b =>
          exfalso
          rw [hp] at h
          simp only [hv] at h
          exact absurd h (by simp [executeMove_success])
        | other => simp [hp, hv, failResult]
      | other => simp [hp, hv, failResult]

/-- Inversion for a successful `move`: the game was ongoing and the call
reduced to `executeMove` at in-bounds integer coordinates on an empty cell. -/
theorem move_success_inv (g : GameState) (input : MoveInput)
    (h : (move g input).2.success = true) :
    g.gameStatus = .ongoing ∧
      ∃ r c : Nat, r < g.config.boardSize ∧ c < g.config.boardSize ∧
        getCell g.board r c = none ∧ move g input = executeMove g r c := by
  unfold move at h ⊢
  cases hp : parseMove g.config input with
  | error e => rw [hp] at h; exact absurd h (by simp [failResult])
  | ok rc =>
    obtain ⟨r, c⟩ := rc
    cases hv : validateMove g.config g.board g.gameStatus r c with
    | some e => rw [hp] at h; simp only [hv] at h; exact absurd h (by simp [failResult])
    | none =>
      cases r with
      | int a =>
        cases c with
        | int b =>
          have hv0 := hv
          unfold validateMove at hv
          simp only at hv
          split at hv
          · exact absurd hv (by simp)
          · rename_i hbnd
            push_neg at hbnd
            obtain ⟨ha0, haS, hb0, hbS⟩ := hbnd
            cases hcell : getCell g.board a.toNat b.toNat with
            | some p => rw [hcell] at hv; exact absurd hv (by simp)
            | none =>
              rw [hcell] at hv
              dsimp only at hv
              by_cases hst : g.gameStatus = GameStatus.ongoing
              · refine ⟨hst, a.toNat, b.toNat, ?_, ?_, hcell, ?_⟩
                · omega
                · omega
                · simp only [hv0]
              · rw [if_pos hst] at hv
                exact absurd hv (by simp)
        | other => simp [validateMove] at hv
      | other => simp [validateMove] at hv


/-! ### Claim C4: rejected moves mutate nothing and never raise -/

/-- C4: every failing `move` call (malformed input, out of bounds, occupied
cell, or game over) is caught internally and returns a result carrying
`success = false`, an error message and an error-kind tag, leaving the whole
engine state — in particular board, move history, move count and current
player — exactly as before the call.  (`move` is a total function of the
model: the source's `try`/`catch` guarantees it never raises.) -/
theorem c4_rejected_move_mutates_nothing (g : GameState) (input : MoveInput)
    (h : (move g input).2.success = false) :
    (move g input).1 = g ∧
    (move g input).1.board = g.board ∧
    (move g input).1.moveHistory = g.moveHistory ∧
    (move g input).1.moveCount = g.moveCount ∧
    (move g input).1.currentPlayer = g.currentPlayer ∧
    (move g input).2.error.isSome = true ∧
    (move g input).2.errorType.isSome = true := by
  have hs := move_fail_state g input h
  have hr := move_fail_result g input h
  exact ⟨hs, by rw [hs], by rw [hs], by rw [hs], by rw [hs], hr.1, hr.2⟩

/-- Witness for C4 at a concrete failing input: the out-of-bounds move (5,0)
on a fresh default game. -/
theorem c4_rejected_move_mutates_nothing_witness :
    (move (initState defaultConfig) (.coords (.int 5) (.int 0))).2.success = false ∧
    (move (initState defaultConfig) (.coords (.int 5) (.int 0))).1 = initState defaultConfig := by
  refine ⟨by decide, ?_⟩
  exact (c4_rejected_move_mutates_nothing (initState defaultConfig)
    (.coords (.int 5) (.int 0)) (by decide)).1

/-! ### Claim C5: move validation order and error kinds -/

/-- C5: `#validateMove` checks, in order and with the first failure winning:
integrality of both coordinates (InvalidMoveError), bounds (InvalidMoveError),
emptiness of the target cell (InvalidMoveError), and finally that the game is
ongoing (GameStateError) — so in particular an occupied cell after the game
has ended yields InvalidMoveError, not GameStateError.  Stated as equality
with the spec-side check chain. -/
theorem c5_validate_order_and_kinds (cfg : Config) (b : Board) (status : GameStatus)
    (row col : JVal) :
    (validateMove cfg b status row col).map TErr.kind =
      specValidateKind cfg b status row col := by
  cases row with
  | other => cases col <;> rfl
  | int r =>
    cases col with
    | other => rfl
    | int c =>
      unfold validateMove specValidateKind
      dsimp only
      by_cases hb : r < 0 ∨ (cfg.boardSize : Int) ≤ r ∨ c < 0 ∨ (cfg.boardSize : Int) ≤ c
      · rw [if_pos hb, if_pos (by omega)]
        rfl
      · rw [if_neg hb, if_neg (show ¬¬ (0 ≤ r ∧ r < (cfg.boardSize : Int) ∧ 0 ≤ c ∧
          c < (cfg.boardSize : Int)) by omega)]
        cases hcell : getCell b r.toNat c.toNat with
        | some p => simp
        | none =>
          by_cases hst : status = GameStatus.ongoing
          · simp [hst]
          · simp [hst]

/-! ### Claim C9: a successful redo empties the redo stack -/

/-- C9: `redo` replays the popped move through the normal `move` pipeline,
and `#executeMove` clears the redo stack on every executed move; hence after
any successful `redo` the redo stack is empty and `canRedo` is false — every
other previously undone move is discarded. -/
theorem c9_successful_redo_empties_stack (g : GameState)
    (h : (redo g).2.success = true) :
    (redo g).1.redoStack = [] ∧ canRedo (redo g).1 = false := by
  unfold redo at h ⊢
  cases hrs : g.redoStack with
  | nil => rw [hrs] at h; exact absurd h (by simp)
  | cons m rest =>
    rw [hrs] at h
    dsimp only at h ⊢
    obtain ⟨-, r, c, -, -, -, heq⟩ := move_success_inv _ _ h
    rw [heq]
    refine ⟨executeMove_fst_redoStack _ _ _, ?_⟩
    unfold canRedo
    rw [executeMove_fst_redoStack]
    rfl

/-- Witness for C9: place a mark, undo it, redo it on the default game; the
redo succeeds and leaves an empty redo stack. -/
theorem c9_successful_redo_empties_stack_witness :
    (redo (undo (move (initState defaultConfig) (.coords (.int 0) (.int 0))).1).1).2.success
        = true ∧
    (redo (undo (move (initState defaultConfig) (.coords (.int 0) (.int 0))).1).1).1.redoStack
        = [] := by
  refine ⟨by decide, ?_⟩
  exact (c9_successful_redo_empties_stack
    (undo (move (initState defaultConfig) (.coords (.int 0) (.int 0))).1).1 (by decide)).1

/-! ### Claim C10: algebraic input is case-insensitive in the column letter -/

/-- Two algebraic strings with the same tail and the same lowercased leading
character parse identically whenever one of them parses to a coordinate (the
source lowercases the column character before interpreting it). -/
theorem fromAlgebraic_lower_congr (cfg : Config) (ch ch2 : Char) (rest : List Char)
    (rc : Nat × Nat) (hlow : jsToLower ch = jsToLower ch2)
    (hok : fromAlgebraic cfg (String.mk (ch :: rest)) = .ok rc) :
    fromAlgebraic cfg (String.mk (ch2 :: rest)) = .ok rc := by
  unfold fromAlgebraic at hok ⊢
  have hlen : (String.mk (ch2 :: rest)).length = (String.mk (ch :: rest)).length := by
    simp [String.length]
  rw [hlen]
  by_cases hL : (String.mk (ch :: rest)).length < 2
  · rw [if_pos hL] at hok
    exact absurd hok (by simp)
  · rw [if_neg hL] at hok ⊢
    dsimp only at hok ⊢
    rw [← hlow]
    by_cases hc : (jsToLower ch).toNat < 97 ∨ 122 < (jsToLower ch).toNat
    · rw [if_pos hc] at hok
      exact absurd hok (by simp)
    · rw [if_neg hc] at hok ⊢
      cases hpi : parseIntJS (String.mk rest) with
      | none => rw [hpi] at hok; exact absurd hok (by simp)
      | some n =>
        rw [hpi] at hok
        dsimp only at hok ⊢
        by_cases hrow : (n : Int) - 1 < 0
        · rw [if_pos hrow] at hok
          exact absurd hok (by simp)
        · rw [if_neg hrow] at hok ⊢
          by_cases hbd : cfg.boardSize ≤ (jsToLower ch).toNat - 97 ∨
              (cfg.boardSize : Int) ≤ n - 1
          · rw [if_pos hbd] at hok
            exact absurd hok (by simp)
          · rw [if_neg hbd] at hok ⊢
            exact hok

/-- C10: for every state, `move` and `isLegalMove` on an algebraic string
behave identically to the same call on the string with its leading column
letter replaced by any character with the same lowercasing (in particular
the upper-case form versus the lower-case form), whenever the string denotes
an in-range coordinate. -/
theorem c10_algebraic_case_insensitive (g : GameState) (ch ch2 : Char) (rest : List Char)
    (rc : Nat × Nat) (hlow : jsToLower ch = jsToLower ch2)
    (hok : fromAlgebraic g.config (String.mk (ch :: rest)) = .ok rc) :
    fromAlgebraic g.config (String.mk (ch2 :: rest)) = .ok rc ∧
    move g (.alg (String.mk (ch :: rest))) = move g (.alg (String.mk (ch2 :: rest))) ∧
    isLegalMove g (.alg (String.mk (ch :: rest)))
      = isLegalMove g (.alg (String.mk (ch2 :: rest))) := by
  have h2 := fromAlgebraic_lower_congr g.config ch ch2 rest rc hlow hok
  refine ⟨h2, ?_, ?_⟩
  · unfold move parseMove
    dsimp only
    rw [hok, h2]
  · unfold isLegalMove parseMove
    dsimp only
    rw [hok, h2]

/-- Witness for C10: `"A1"` and `"a1"` on a fresh default game. -/
theorem c10_algebraic_case_insensitive_witness :
    move (initState defaultConfig) (.alg (String.mk ['A', '1']))
      = move (initState defaultConfig) (.alg (String.mk ['a', '1'])) :=
  (c10_algebraic_case_insensitive (initState defaultConfig) 'A' 'a' ['1'] (0, 0)
    (by decide) (by rfl)).2.1

/-! ### Claim C3: importState fails after mutating (code bug) -/

/-- Claim C3 is violated by the code: on this failing import — a well-formed
exported state whose embedded configuration is invalid — `importState` raises
a `ConfigurationError`, but the engine's configuration has already been
replaced by the merged (invalid) configuration `boardSize = 99`, a state
`#validateConfig` itself rejects and the constructor could never produce.
The merge `this.#config = Object.freeze({...})` happens before
`#validateConfig()` is called and the `catch` block performs no rollback. -/
theorem c3_import_state_not_atomic :
    (importState (initState defaultConfig) importFailInput).2.isSome = true ∧
    (importState (initState defaultConfig) importFailInput).1.config
        ≠ (initState defaultConfig).config ∧
    (importState (initState defaultConfig) importFailInput).1.config.boardSize = 99 ∧
    validateConfig (importState (initState defaultConfig) importFailInput).1.config
        ≠ none := by
  decide

/-! ### Claim C8: algebraic parsing failure conditions -/

/-- Claim C8 as stated is false at the input `"a1x"`: its remaining
characters `"1x"` are not a positive integer, so the claim predicts failure,
yet `parseInt`-based parsing succeeds and yields row 0, column 0 (trailing
characters after the digit run are ignored). -/
theorem c8_counterexample :
    fromAlgebraic defaultConfig "a1x" = Except.ok (0, 0) ∧
    "a1x".drop 1 = "1x" ∧
    isPosIntLiteral ("a1x".drop 1) = false :=
  ⟨rfl, rfl, by decide⟩

/-- C8 (amended): parsing an algebraic string fails — always with
`InvalidMoveError` — exactly when the string has length < 2, its lowercased
leading character is not a letter a–z, `parseInt` applied to the remaining
characters (optional leading whitespace and sign, maximal digit run, trailing
characters ignored) yields no integer or an integer < 1, or the resulting
coordinates lie outside the configured board; otherwise it yields `{row, col}`
with `col` the letter's 0-based index and `row` the parsed number minus 1. -/
theorem c8_amended_from_algebraic (cfg : Config) (s : String) :
    match fromAlgebraic cfg s with
    | .ok rc => specFromAlgebraic cfg s = some rc
    | .error e => specFromAlgebraic cfg s = none ∧ e.kind = ErrKind.invalidMove := by
  obtain ⟨l⟩ := s
  cases l with
  | nil => simp [fromAlgebraic, specFromAlgebraic]
  | cons ch rest =>
    unfold fromAlgebraic specFromAlgebraic
    dsimp only
    by_cases hL : (String.mk (ch :: rest)).length < 2
    · rw [if_pos hL, if_pos hL]
      exact ⟨rfl, rfl⟩
    · rw [if_neg hL, if_neg hL]
      by_cases hc : (jsToLower ch).toNat < 97 ∨ 122 < (jsToLower ch).toNat
      · rw [if_pos hc, if_pos hc]
        exact ⟨rfl, rfl⟩
      · rw [if_neg hc, if_neg hc]
        cases hpi : parseIntJS (String.mk rest) with
        | none => exact ⟨rfl, rfl⟩
        | some n =>
          dsimp only
          by_cases hn : n < 1
          · rw [if_pos (show n - 1 < 0 by omega), if_pos hn]
            exact ⟨rfl, rfl⟩
          · rw [if_neg (show ¬ n - 1 < 0 by omega), if_neg hn]
            by_cases hbd : cfg.boardSize ≤ (n - 1).toNat ∨
                cfg.boardSize ≤ (jsToLower ch).toNat - 97
            · rw [if_pos (show cfg.boardSize ≤ (jsToLower ch).toNat - 97 ∨
                  (cfg.boardSize : Int) ≤ n - 1 by omega), if_pos hbd]
              exact ⟨rfl, rfl⟩
            · rw [if_neg (show ¬ (cfg.boardSize ≤ (jsToLower ch).toNat - 97 ∨
                  (cfg.boardSize : Int) ≤ n - 1) by omega), if_neg hbd]

/-! ### Claim C1: win and draw detection -/

/-- `findSome?` over a pointwise-equal function. -/
theorem findSome?_congr {α β : Type} (l : List α) (f g : α → Option β)
    (h : ∀ a ∈ l, f a = g a) : l.findSome? f = l.findSome? g := by
  induction l with
  | nil => rfl
  | cons x xs ih =>
    rw [List.findSome?_cons, List.findSome?_cons, h x (by simp)]
    cases g x with
    | none => exact ih fun a ha => h a (by simp [ha])
    | some b => rfl

/-- `findSome?` over a `flatMap` is the nested first-match search. -/
theorem findSome?_flatMap {α β γ : Type} (l : List α) (f : α → List β) (g : β → Option γ) :
    (l.flatMap f).findSome? g = l.findSome? fun a => (f a).findSome? g := by
  induction l with
  | nil => rfl
  | cons x xs ih =>
    rw [List.flatMap_cons, List.findSome?_append, List.findSome?_cons, ih]
    cases (f x).findSome? g with
    | none => rfl
    | some c => rfl

/-- `findSome?` over a `map`. -/
theorem findSome?_map_eq {α β γ : Type} (l : List α) (f : α → β) (g : β → Option γ) :
    (l.map f).findSome? g = l.findSome? fun a => g (f a) := by
  induction l with
  | nil => rfl
  | cons x xs ih => rw [List.map_cons, List.findSome?_cons, List.findSome?_cons, ih]

/-- A constantly-`none` first-match search finds nothing. -/
theorem findSome?_const_none {α β : Type} (l : List α) :
    l.findSome? (fun _ => (none : Option β)) = none := by
  induction l with
  | nil => rfl
  | cons x xs ih => rw [List.findSome?_cons]; exact ih

/-- When every remaining step stays on the board, the `#getLine` loop keeps
all of them. -/
theorem getLineGo_of_inB (size : Nat) (sr sc : Nat) (dR dC : Int) :
    ∀ (rem i : Nat),
      (∀ j : Nat, i ≤ j → j < i + rem →
        ¬((sr : Int) + (j : Int) * dR < 0 ∨ (size : Int) ≤ (sr : Int) + (j : Int) * dR ∨
          (sc : Int) + (j : Int) * dC < 0 ∨ (size : Int) ≤ (sc : Int) + (j : Int) * dC)) →
      getLineGo size sr sc dR dC i rem =
        (List.range rem).map fun k =>
          ⟨((sr : Int) + ((i + k : Nat) : Int) * dR).toNat,
           ((sc : Int) + ((i + k : Nat) : Int) * dC).toNat⟩ := by
  intro rem
  induction rem with
  | zero => intro i _; rfl
  | succ m ih =>
    intro i h
    rw [getLineGo]
    rw [if_neg (h i le_rfl (by omega))]
    rw [ih (i + 1) (fun j hj1 hj2 => h j (by omega) (by omega))]
    rw [List.range_succ_eq_map, List.map_cons, List.map_map]
    refine congrArg₂ List.cons ?_ ?_
    · norm_num
    · refine List.map_congr_left ?_
      intro k hk
      have hik : i + 1 + k = i + (k + 1) := by omega
      simp only [Function.comp_apply]
      rw [hik]

/-- When some remaining step leaves the board, the `#getLine` loop stops
early (the candidate is shorter than requested). -/
theorem getLineGo_length_lt (size : Nat) (sr sc : Nat) (dR dC : Int) :
    ∀ (rem i j : Nat), i ≤ j → j < i + rem →
      ((sr : Int) + (j : Int) * dR < 0 ∨ (size : Int) ≤ (sr : Int) + (j : Int) * dR ∨
        (sc : Int) + (j : Int) * dC < 0 ∨ (size : Int) ≤ (sc : Int) + (j : Int) * dC) →
      (getLineGo size sr sc dR dC i rem).length < rem := by
  intro rem
  induction rem with
  | zero => intro i j h1 h2 _; omega
  | succ m ih =>
    intro i j h1 h2 hoob
    rw [getLineGo]
    by_cases hi : (sr : Int) + (i : Int) * dR < 0 ∨ (size : Int) ≤ (sr : Int) + (i : Int) * dR ∨
        (sc : Int) + (i : Int) * dC < 0 ∨ (size : Int) ≤ (sc : Int) + (i : Int) * dC
    · rw [if_pos hi]
      simp
    · rw [if_neg hi]
      have hij : i ≠ j := fun hEq => hi (hEq ▸ hoob)
      have := ih (i + 1) j (by omega) (by omega) hoob
      simpa using this

/-- The per-direction test of `#checkWin` agrees with the spec-side candidate
line: a full-length line is exactly a non-discarded candidate. -/
theorem lineStep_eq (size : Nat) (r c : Nat) (d : Int × Int) (len : Nat) (p : String)
    (P : Pos → Bool) :
    (if (getLine size r c d.1 d.2 len).length == len
        && (getLine size r c d.1 d.2 len).all P then
       some (p, getLine size r c d.1 d.2 len)
     else none)
    = match specCandidateLine size r c d len with
      | none => none
      | some line => if line.all P then some (p, line) else none := by
  unfold specCandidateLine
  dsimp only
  by_cases hall : ∀ j : Nat, j < len →
      ¬((r : Int) + (j : Int) * d.1 < 0 ∨ (size : Int) ≤ (r : Int) + (j : Int) * d.1 ∨
        (c : Int) + (j : Int) * d.2 < 0 ∨ (size : Int) ≤ (c : Int) + (j : Int) * d.2)
  · have hcond : ((List.range len).map fun (i : Nat) =>
        ((r : Int) + (i : Int) * d.1, (c : Int) + (i : Int) * d.2)).all
          (fun q => specInB size q.1 && specInB size q.2) = true := by
      simp only [List.all_eq_true, List.mem_map, List.mem_range]
      rintro q ⟨j, hj, rfl⟩
      have := hall j hj
      simp only [specInB, Bool.and_eq_true, decide_eq_true_eq]
      omega
    have hline : getLine size r c d.1 d.2 len =
        (List.range len).map fun (k : Nat) =>
          ⟨((r : Int) + (k : Int) * d.1).toNat, ((c : Int) + (k : Int) * d.2).toNat⟩ := by
      unfold getLine
      rw [getLineGo_of_inB size r c d.1 d.2 len 0 (fun j hj1 hj2 => hall j (by omega))]
      simp
    have hmm : (((List.range len).map fun (i : Nat) =>
          ((r : Int) + (i : Int) * d.1, (c : Int) + (i : Int) * d.2)).map
            fun q => (⟨q.1.toNat, q.2.toNat⟩ : Pos))
        = (List.range len).map fun (k : Nat) =>
            ⟨((r : Int) + (k : Int) * d.1).toNat, ((c : Int) + (k : Int) * d.2).toNat⟩ := by
      rw [List.map_map]
      rfl
    rw [hcond, if_pos rfl]
    dsimp only
    rw [hmm, hline]
    have hlen : (((List.range len).map fun (k : Nat) =>
        (⟨((r : Int) + (k : Int) * d.1).toNat, ((c : Int) + (k : Int) * d.2).toNat⟩ : Pos)).length
          == len) = true := by
      simp
    rw [hlen, Bool.true_and]
  · push_neg at hall
    obtain ⟨j, hj, hoob⟩ := hall
    have hcond : ((List.range len).map fun (i : Nat) =>
        ((r : Int) + (i : Int) * d.1, (c : Int) + (i : Int) * d.2)).all
          (fun q => specInB size q.1 && specInB size q.2) = false := by
      rw [← Bool.not_eq_true]
      simp only [List.all_eq_true, List.mem_map, List.mem_range]
      push_neg
      refine ⟨((r : Int) + (j : Int) * d.1, (c : Int) + (j : Int) * d.2), ⟨j, hj, rfl⟩, ?_⟩
      simp only [specInB, Bool.and_eq_true, decide_eq_true_eq, ne_eq]
      omega
    have hlt : (getLine size r c d.1 d.2 len).length < len :=
      getLineGo_length_lt size r c d.1 d.2 len 0 j (by omega) (by omega) hoob
    have hbeq : ((getLine size r c d.1 d.2 len).length == len) = false := by
      simp only [beq_eq_false_iff_ne, ne_eq]
      omega
    rw [hcond, hbeq, Bool.false_and]
    rw [if_neg (by simp : ¬ (false = true)), if_neg (by simp : ¬ (false = true))]

/-- A cell read from a board with no empty-string symbols is not `""`. -/
theorem getCell_ne_empty (b : Board) (h : noEmptySymbols b = true) (r c : Nat) (p : String)
    (hp : getCell b r c = some p) : ¬ p = "" := by
  unfold getCell at hp
  unfold noEmptySymbols at h
  simp only [List.all_eq_true, bne_iff_ne, ne_eq] at h
  by_cases hr : r < b.length
  · rw [List.getD_eq_getElem b [] hr] at hp
    by_cases hc : c < b[r].length
    · rw [List.getD_eq_getElem b[r] none hc] at hp
      have := h b[r] (List.getElem_mem hr) b[r][c] (List.getElem_mem hc)
      rw [hp] at this
      intro hpe
      exact this (by rw [hpe])
    · rw [List.getD_eq_default b[r] none (by omega)] at hp
      exact absurd hp (by simp)
  · rw [List.getD_eq_default b [] (by omega)] at hp
    exact absurd hp (by simp)

/-- `#checkWin` is exactly the spec's first-match scan: row-major cells, the
four directions in order, first full candidate line of one player wins. -/
theorem checkWin_eq_specFirstWin (cfg : Config) (b : Board)
    (hne : noEmptySymbols b = true) :
    checkWin cfg b = specFirstWin cfg b := by
  unfold checkWin specFirstWin specScanOrder
  rw [findSome?_flatMap]
  refine findSome?_congr _ _ _ ?_
  intro r hr
  rw [findSome?_flatMap]
  refine findSome?_congr _ _ _ ?_
  intro c hc
  rw [findSome?_map_eq]
  cases hcell : getCell b r c with
  | none =>
    dsimp only
    refine Eq.symm ((findSome?_congr _ _ (fun _ => none) ?_).trans (findSome?_const_none _))
    intro d hd
    rw [hcell]
  | some p =>
    dsimp only
    rw [if_neg (getCell_ne_empty b hne r c p hcell)]
    refine findSome?_congr _ _ _ ?_
    intro d hd
    rw [lineStep_eq cfg.boardSize r c d cfg.winLength p
      (fun pos => getCell b pos.row pos.col == some p)]
    rw [hcell]

/-- C1: after every move and undo the engine recomputes status via
`#checkWin`/`#updateGameStatus`; the reported winner and winning line come
from the first candidate line in row-major cell order and listed direction
order whose `winLength` in-bounds cells all hold one player (off-board
candidates discarded), and with no such line the status is Draw exactly when
no empty cell remains and Ongoing otherwise.  (The hypothesis excludes the
empty-string player symbol, which a validated configuration can never
produce and which the source's falsy-cell test skips.) -/
theorem c1_win_draw_detection (g : GameState) (hne : noEmptySymbols g.board = true) :
    checkWin g.config g.board = specFirstWin g.config g.board ∧
    (updateGameStatus g).gameStatus =
      (match specFirstWin g.config g.board with
       | some _ => GameStatus.finished
       | none =>
         if countEmptyCells g.board = 0 then GameStatus.draw else GameStatus.ongoing) ∧
    (updateGameStatus g).winner = (specFirstWin g.config g.board).map Prod.fst ∧
    (updateGameStatus g).winningLine = (specFirstWin g.config g.board).map Prod.snd := by
  have hcw := checkWin_eq_specFirstWin g.config g.board hne
  refine ⟨hcw, ?_⟩
  rw [← hcw]
  unfold updateGameStatus
  cases h : checkWin g.config g.board with
  | some wl =>
    obtain ⟨w, line⟩ := wl
    exact ⟨rfl, rfl, rfl⟩
  | none =>
    by_cases hemp : countEmptyCells g.board = 0
    · rw [if_pos hemp, if_pos hemp]
      exact ⟨rfl, rfl, rfl⟩
    · rw [if_neg hemp, if_neg hemp]
      exact ⟨rfl, rfl, rfl⟩

/-- Witness for C1 on a concrete state: the default fresh board (no win, nine
empty cells, status Ongoing). -/
theorem c1_win_draw_detection_witness :
    noEmptySymbols (initState defaultConfig).board = true ∧
    checkWin (initState defaultConfig).config (initState defaultConfig).board
      = specFirstWin (initState defaultConfig).config (initState defaultConfig).board :=
  ⟨by decide, (c1_win_draw_detection (initState defaultConfig) (by decide)).1⟩

/-! ### List and board access lemmas -/

theorem getD_set_self {α : Type} (l : List α) (i : Nat) (a d : α) (h : i < l.length) :
    (l.set i a).getD i d = a := by
  induction l generalizing i with
  | nil => simp at h
  | cons x xs ih =>
    cases i with
    | zero => rfl
    | succ n => exact ih n (by simpa using h)

theorem getD_set_ne {α : Type} (l : List α) (i j : Nat) (a d : α) (h : i ≠ j) :
    (l.set i a).getD j d = l.getD j d := by
  induction l generalizing i j with
  | nil => simp [List.set]
  | cons x xs ih =>
    cases i with
    | zero =>
      cases j with
      | zero => exact absurd rfl h
      | succ m => rfl
    | succ n =>
      cases j with
      | zero => rfl
      | succ m => exact ih n m (by omega)

theorem set_getD_self {α : Type} (l : List α) (i : Nat) (d : α) (h : i < l.length) :
    l.set i (l.getD i d) = l := by
  induction l generalizing i with
  | nil => rfl
  | cons x xs ih =>
    cases i with
    | zero => rfl
    | succ n =>
      show x :: xs.set n (xs.getD n d) = x :: xs
      rw [ih n (by simpa using h)]

theorem getD_mem_of_lt {α : Type} (l : List α) (i : Nat) (d : α) (h : i < l.length) :
    l.getD i d ∈ l := by
  induction l generalizing i with
  | nil => simp at h
  | cons x xs ih =>
    cases i with
    | zero => exact List.mem_cons_self x xs
    | succ n => exact List.mem_cons_of_mem x (ih n (by simpa using h))

theorem getCell_setCell_self (b : Board) (r c : Nat) (v : Option String)
    (hr : r < b.length) (hc : c < (b.getD r []).length) :
    getCell (setCell b r c v) r c = v := by
  unfold getCell setCell
  rw [getD_set_self b r _ [] hr, getD_set_self _ c v none (by simpa using hc)]

theorem getCell_setCell_ne (b : Board) (r c r' c' : Nat) (v : Option String)
    (hne : (r', c') ≠ (r, c)) :
    getCell (setCell b r c v) r' c' = getCell b r' c' := by
  unfold getCell setCell
  by_cases hrr : r = r'
  · subst hrr
    have hcc : c ≠ c' := fun hEq => hne (by rw [hEq])
    by_cases hr : r < b.length
    · rw [getD_set_self b r _ [] hr, getD_set_ne _ c c' v none hcc]
    · rw [List.set_eq_of_length_le (by omega)]
  · rw [getD_set_ne b r r' _ [] hrr]

theorem rowOcc_set (l : List (Option String)) (c : Nat) (v : Option String)
    (h : c < l.length) :
    rowOcc (l.set c v) + (if (l.getD c none).isSome then 1 else 0)
      = rowOcc l + (if v.isSome then 1 else 0) := by
  induction l generalizing c with
  | nil => simp at h
  | cons x xs ih =>
    cases c with
    | zero =>
      show rowOcc (v :: xs) + _ = rowOcc (x :: xs) + _
      unfold rowOcc
      cases v <;> cases x <;> simp [List.filter] <;> omega
    | succ n =>
      have hx : rowOcc (x :: xs.set n v) = (if x.isSome then 1 else 0) + rowOcc (xs.set n v) := by
        unfold rowOcc
        cases x <;> simp [List.filter] <;> omega
      have hx2 : rowOcc (x :: xs) = (if x.isSome then 1 else 0) + rowOcc xs := by
        unfold rowOcc
        cases x <;> simp [List.filter] <;> omega
      have hmain := ih n (by simpa using h)
      show rowOcc (x :: xs.set n v) + (if (xs.getD n none).isSome then 1 else 0)
        = rowOcc (x :: xs) + (if v.isSome then 1 else 0)
      omega

theorem occupiedCount_rows (b : Board) :
    occupiedCount b = (b.map rowOcc).sum := by
  induction b with
  | nil => rfl
  | cons row rows ih =>
    unfold occupiedCount at ih ⊢
    rw [List.flatten_cons, List.filter_append, List.length_append, ih]
    rfl

theorem occupiedCount_set_row (b : Board) (r : Nat) (row' : List (Option String))
    (h : r < b.length) :
    occupiedCount (b.set r row') + rowOcc (b.getD r []) = occupiedCount b + rowOcc row' := by
  induction b generalizing r with
  | nil => simp at h
  | cons x xs ih =>
    cases r with
    | zero =>
      rw [occupiedCount_rows ((x :: xs).set 0 row'), occupiedCount_rows (x :: xs)]
      show ((row' :: xs).map rowOcc).sum + rowOcc x = _
      simp only [List.map_cons, List.sum_cons]
      omega
    | succ n =>
      have hmain := ih n (by simpa using h)
      rw [occupiedCount_rows ((x :: xs).set (n + 1) row'), occupiedCount_rows (x :: xs)]
      rw [occupiedCount_rows (xs.set n row'), occupiedCount_rows xs] at hmain
      show ((x :: xs.set n row').map rowOcc).sum + rowOcc (xs.getD n []) = _
      simp only [List.map_cons, List.sum_cons]
      omega

theorem occupiedCount_setCell (b : Board) (r c : Nat) (v : Option String)
    (hr : r < b.length) (hc : c < (b.getD r []).length) :
    occupiedCount (setCell b r c v) + (if (getCell b r c).isSome then 1 else 0)
      = occupiedCount b + (if v.isSome then 1 else 0) := by
  unfold setCell getCell
  have h1 := occupiedCount_set_row b r ((b.getD r []).set c v) hr
  have h2 := rowOcc_set (b.getD r []) c v hc
  omega

theorem setCell_setCell_none (b : Board) (r c : Nat) (v : Option String)
    (hr : r < b.length) (hc : c < (b.getD r []).length)
    (hnone : getCell b r c = none) :
    setCell (setCell b r c v) r c none = b := by
  unfold getCell at hnone
  unfold setCell
  rw [getD_set_self b r _ [] hr, List.set_set, List.set_set]
  have h2 : (b.getD r []).set c none = b.getD r [] := by
    conv_lhs => rw [← hnone]
    exact set_getD_self _ c none hc
  rw [h2, set_getD_self b r [] hr]

theorem shape_setCell (cfg : Config) (b : Board) (r c : Nat) (v : Option String)
    (h : Shape cfg b) : Shape cfg (setCell b r c v) := by
  obtain ⟨hlen, hrow⟩ := h
  by_cases hr : r < b.length
  · refine ⟨by simpa [setCell] using hlen, ?_⟩
    intro row hmem
    unfold setCell at hmem
    rcases List.mem_or_eq_of_mem_set hmem with hmem2 | rfl
    · exact hrow row hmem2
    · rw [List.length_set]
      exact hrow _ (getD_mem_of_lt b r [] hr)
  · unfold setCell
    rw [List.set_eq_of_length_le (by omega)]
    exact ⟨hlen, hrow⟩

theorem shape_mkBoard (cfg : Config) : Shape cfg (mkBoard cfg.boardSize) := by
  constructor
  · simp [mkBoard]
  · intro row hmem
    rw [List.eq_of_mem_replicate hmem]
    simp

theorem getD_replicate_ite {α : Type} (n i : Nat) (a d : α) :
    (List.replicate n a).getD i d = if i < n then a else d := by
  induction n generalizing i with
  | zero => cases i <;> simp [List.replicate]
  | succ m ih =>
    cases i with
    | zero => simp [List.replicate]
    | succ k =>
      show (List.replicate m a).getD k d = _
      rw [ih k]
      by_cases h : k < m
      · rw [if_pos h, if_pos (by omega)]
      · rw [if_neg h, if_neg (by omega)]

theorem getCell_mkBoard (n r c : Nat) : getCell (mkBoard n) r c = none := by
  unfold getCell mkBoard
  rw [getD_replicate_ite]
  by_cases hr : r < n
  · rw [if_pos hr, getD_replicate_ite]
    by_cases hc : c < n
    · rw [if_pos hc]
    · rw [if_neg hc]
  · rw [if_neg hr]
    rfl

theorem occupiedCount_mkBoard (n : Nat) : occupiedCount (mkBoard n) = 0 := by
  unfold occupiedCount
  rw [List.length_eq_zero, List.filter_eq_nil_iff]
  intro a ha
  obtain ⟨l, hl, hal⟩ := List.mem_flatten.mp ha
  rw [List.eq_of_mem_replicate hl] at hal
  rw [List.eq_of_mem_replicate hal]
  simp

/-! ### Field lemmas for executeMove and undo -/

theorem executeMove_fst_eq (g : GameState) (r c : Nat) :
    (executeMove g r c).1 =
      (let g4 := updateGameStatus
        { g with redoStack := [],
                 board := setCell g.board r c (some g.currentPlayer),
                 moveHistory := g.moveHistory ++
                   [⟨r, c, g.currentPlayer, toAlgebraic r c, g.moveCount + 1⟩],
                 moveCount := g.moveCount + 1 }
       if g4.gameStatus = GameStatus.ongoing then switchPlayer g4 else g4) := rfl

theorem executeMove_board (g : GameState) (r c : Nat) :
    (executeMove g r c).1.board = setCell g.board r c (some g.currentPlayer) := by
  rw [executeMove_fst_eq]
  dsimp only
  split
  · rw [switchPlayer_board, updateGameStatus_board]
  · rw [updateGameStatus_board]

theorem executeMove_moveHistory (g : GameState) (r c : Nat) :
    (executeMove g r c).1.moveHistory =
      g.moveHistory ++ [⟨r, c, g.currentPlayer, toAlgebraic r c, g.moveCount + 1⟩] := by
  rw [executeMove_fst_eq]
  dsimp only
  split
  · rw [switchPlayer_moveHistory, updateGameStatus_moveHistory]
  · rw [updateGameStatus_moveHistory]

theorem executeMove_moveCount (g : GameState) (r c : Nat) :
    (executeMove g r c).1.moveCount = g.moveCount + 1 := by
  rw [executeMove_fst_eq]
  dsimp only
  split
  · rw [switchPlayer_moveCount, updateGameStatus_moveCount]
  · rw [updateGameStatus_moveCount]

theorem executeMove_config (g : GameState) (r c : Nat) :
    (executeMove g r c).1.config = g.config := by
  rw [executeMove_fst_eq]
  dsimp only
  split
  · rw [switchPlayer_config, updateGameStatus_config]
  · rw [updateGameStatus_config]

theorem undo_fst_of_getLast (g : GameState) (lastMove : MoveRecord)
    (h : g.moveHistory.getLast? = some lastMove) :
    (undo g).1 =
      (let g2 := updateGameStatus
        { g with moveHistory := g.moveHistory.dropLast,
                 board := setCell g.board lastMove.row lastMove.col none,
                 currentPlayer := lastMove.player,
                 moveCount := g.moveCount - 1 }
       { g2 with redoStack := lastMove :: g2.redoStack }) ∧ (undo g).2.success = true := by
  unfold undo
  rw [h]
  exact ⟨rfl, rfl⟩

/-! ### Claim C6: move count invariant -/

theorem countInv_initState (cfg : Config) : CountInv (initState cfg) := by
  refine ⟨shape_mkBoard cfg, rfl, occupiedCount_mkBoard cfg.boardSize, ?_, ?_, ?_⟩
  · intro m hm
    simp [initState] at hm
  · simp [histCells, initState]
  · intro rc hrc
    simp [histCells, initState] at hrc

theorem countInv_mk_copy (g : GameState) (rs : List MoveRecord) (h : CountInv g) :
    CountInv { g with redoStack := rs } :=
  ⟨h.shape, h.count_eq, h.occ_eq, h.mem_bounds, h.nodup, h.mem_occ⟩

theorem histCells_append_rec (g : GameState) (rec1 : MoveRecord) :
    (g.moveHistory ++ [rec1]).map (fun m => (m.row, m.col))
      = histCells g ++ [(rec1.row, rec1.col)] := by
  rw [List.map_append]
  rfl

theorem countInv_executeMove (g : GameState) (r c : Nat)
    (hr : r < g.config.boardSize) (hc : c < g.config.boardSize)
    (hempty : getCell g.board r c = none) (h : CountInv g) :
    CountInv (executeMove g r c).1 := by
  have hshape := h.shape
  have hrb : r < g.board.length := by rw [hshape.1]; exact hr
  have hcb : c < (g.board.getD r []).length := by
    rw [hshape.2 _ (getD_mem_of_lt g.board r [] hrb)]
    exact hc
  have hnotmem : (r, c) ∉ histCells g := by
    intro hmem
    have := h.mem_occ (r, c) hmem
    rw [hempty] at this
    simp at this
  constructor
  · rw [executeMove_board, executeMove_config]
    exact shape_setCell g.config g.board r c _ hshape
  · rw [executeMove_moveCount, executeMove_moveHistory, List.length_append]
    rw [h.count_eq]
    rfl
  · rw [executeMove_board, executeMove_moveCount]
    have hset := occupiedCount_setCell g.board r c (some g.currentPlayer) hrb hcb
    rw [hempty] at hset
    simp at hset
    have hocc := h.occ_eq
    omega
  · intro m hm
    rw [executeMove_moveHistory] at hm
    rw [executeMove_config]
    rcases List.mem_append.mp hm with hm2 | hm2
    · exact h.mem_bounds m hm2
    · rw [List.mem_singleton.mp hm2]
      exact ⟨hr, hc⟩
  · show (((executeMove g r c).1.moveHistory).map fun m => (m.row, m.col)).Nodup
    rw [executeMove_moveHistory, histCells_append_rec]
    rw [List.nodup_append]
    refine ⟨h.nodup, by simp, ?_⟩
    intro a ha hb
    simp only [List.mem_singleton] at hb
    subst hb
    exact hnotmem ha
  · intro rc hrc
    show (getCell (executeMove g r c).1.board rc.1 rc.2).isSome = true
    unfold histCells at hrc
    rw [executeMove_moveHistory, histCells_append_rec] at hrc
    rw [executeMove_board]
    rcases List.mem_append.mp hrc with h2 | h2
    · have hne : (rc.1, rc.2) ≠ (r, c) := by
        intro hEq
        apply hnotmem
        have hrc2 : rc = (r, c) := by
          obtain ⟨a, b⟩ := rc
          simpa using hEq
        rw [← hrc2]
        exact h2
      rw [getCell_setCell_ne g.board r c rc.1 rc.2 _ hne]
      exact h.mem_occ rc h2
    · rw [List.mem_singleton.mp h2]
      show (getCell (setCell g.board r c (some g.currentPlayer)) r c).isSome = true
      rw [getCell_setCell_self g.board r c _ hrb hcb]
      rfl

theorem countInv_move (g : GameState) (input : MoveInput) (h : CountInv g) :
    CountInv (move g input).1 := by
  by_cases hs : (move g input).2.success = true
  · obtain ⟨-, r, c, hr, hc, hempty, heq⟩ := move_success_inv g input hs
    rw [heq]
    exact countInv_executeMove g r c hr hc hempty h
  · have hs2 : (move g input).2.success = false := by
      revert hs
      cases (move g input).2.success <;> simp
    rw [move_fail_state g input hs2]
    exact h

theorem countInv_undo (g : GameState) (h : CountInv g) : CountInv (undo g).1 := by
  cases hlast : g.moveHistory.getLast? with
  | none =>
    unfold undo
    rw [hlast]
    exact h
  | some lastMove =>
    obtain ⟨hfst, -⟩ := undo_fst_of_getLast g lastMove hlast
    have hne : g.moveHistory ≠ [] := by
      intro h0
      rw [h0] at hlast
      simp at hlast
    have hlastEq : g.moveHistory.getLast hne = lastMove := by
      have := List.getLast?_eq_getLast g.moveHistory hne
      rw [this] at hlast
      exact (Option.some_inj.mp hlast)
    have hsplit : g.moveHistory = g.moveHistory.dropLast ++ [lastMove] := by
      conv_lhs => rw [← List.dropLast_append_getLast hne]
      rw [hlastEq]
    have hmem : lastMove ∈ g.moveHistory := by
      rw [hsplit]
      exact List.mem_append.mpr (Or.inr (by simp))
    obtain ⟨hlr, hlc⟩ := h.mem_bounds lastMove hmem
    have hcellmem : (lastMove.row, lastMove.col) ∈ histCells g := by
      unfold histCells
      exact List.mem_map.mpr ⟨lastMove, hmem, rfl⟩
    have hcellsome := h.mem_occ _ hcellmem
    have hshape := h.shape
    have hrb : lastMove.row < g.board.length := by rw [hshape.1]; exact hlr
    have hcb : lastMove.col < (g.board.getD lastMove.row []).length := by
      rw [hshape.2 _ (getD_mem_of_lt g.board lastMove.row [] hrb)]
      exact hlc
    have hmapsplit : histCells g
        = (g.moveHistory.dropLast.map fun m => (m.row, m.col))
            ++ [(lastMove.row, lastMove.col)] := by
      unfold histCells
      conv_lhs => rw [hsplit]
      rw [List.map_append]
      rfl
    have hnodup := h.nodup
    rw [hmapsplit, List.nodup_append] at hnodup
    obtain ⟨hnd1, -, hdisj⟩ := hnodup
    have hlen1 : 1 ≤ g.moveHistory.length := by
      rw [hsplit, List.length_append]
      simp
    rw [hfst]
    constructor
    · show Shape _ (updateGameStatus _).board
      rw [updateGameStatus_board, updateGameStatus_config]
      exact shape_setCell g.config g.board lastMove.row lastMove.col none hshape
    · show (updateGameStatus _).moveCount = (updateGameStatus _).moveHistory.length
      rw [updateGameStatus_moveCount, updateGameStatus_moveHistory]
      show g.moveCount - 1 = g.moveHistory.dropLast.length
      rw [List.length_dropLast, h.count_eq]
    · show occupiedCount (updateGameStatus _).board = (updateGameStatus _).moveCount
      rw [updateGameStatus_board, updateGameStatus_moveCount]
      show occupiedCount (setCell g.board lastMove.row lastMove.col none) = g.moveCount - 1
      have hset := occupiedCount_setCell g.board lastMove.row lastMove.col none hrb hcb
      rw [hcellsome] at hset
      simp at hset
      have hocc := h.occ_eq
      have hcnt := h.count_eq
      omega
    · intro m hm
      show m.row < (updateGameStatus _).config.boardSize ∧
        m.col < (updateGameStatus _).config.boardSize
      rw [updateGameStatus_config]
      show m.row < g.config.boardSize ∧ m.col < g.config.boardSize
      refine h.mem_bounds m ?_
      have hmm : m ∈ g.moveHistory.dropLast := by
        simpa [updateGameStatus_moveHistory] using hm
      exact (List.dropLast_sublist g.moveHistory).subset hmm
    · show ((( _ : GameState).moveHistory).map fun m => (m.row, m.col)).Nodup
      rw [updateGameStatus_moveHistory]
      exact hnd1
    · intro rc hrc
      show (getCell ( _ : GameState).board rc.1 rc.2).isSome = true
      rw [updateGameStatus_board]
      unfold histCells at hrc
      rw [updateGameStatus_moveHistory] at hrc
      have hrc1 : rc ∈ g.moveHistory.dropLast.map fun m => (m.row, m.col) := hrc
      have hrcne : rc ≠ (lastMove.row, lastMove.col) := by
        intro hEq
        exact hdisj hrc1 (by simp [hEq])
      have hrcmem : rc ∈ histCells g := by
        rw [hmapsplit]
        exact List.mem_append.mpr (Or.inl hrc1)
      have hne2 : (rc.1, rc.2) ≠ (lastMove.row, lastMove.col) := by
        obtain ⟨a, b⟩ := rc
        exact hrcne
      rw [getCell_setCell_ne g.board lastMove.row lastMove.col rc.1 rc.2 _ hne2]
      exact h.mem_occ rc hrcmem

theorem countInv_redo (g : GameState) (h : CountInv g) : CountInv (redo g).1 := by
  unfold redo
  cases hrs : g.redoStack with
  | nil => exact h
  | cons m rest =>
    dsimp only
    exact countInv_move _ _ (countInv_mk_copy g rest h)

theorem countInv_reachable (g : GameState) (h : Reachable g) : CountInv g := by
  induction h with
  | init cfg hv => exact countInv_initState cfg
  | reset hg ih => exact countInv_initState _
  | mv input hg ih => exact countInv_move _ input ih
  | un hg ih => exact countInv_undo _ ih
  | re hg ih => exact countInv_redo _ ih

/-- C6: in every state reachable from construction or `reset()` by `move`,
`undo` and `redo` calls, the length of the move history equals `moveCount`
and equals the number of occupied board cells. -/
theorem c6_move_count_invariant (g : GameState) (h : Reachable g) :
    g.moveHistory.length = g.moveCount ∧ occupiedCount g.board = g.moveCount := by
  have hc := countInv_reachable g h
  exact ⟨hc.count_eq.symm, hc.occ_eq⟩

/-- Witness for C6 at a concrete reachable state: one move played from a
fresh default game. -/
theorem c6_move_count_invariant_witness :
    (move (initState defaultConfig)
        (MoveInput.coords (JVal.int 0) (JVal.int 0))).1.moveHistory.length
      = (move (initState defaultConfig)
          (MoveInput.coords (JVal.int 0) (JVal.int 0))).1.moveCount ∧
    occupiedCount (move (initState defaultConfig)
        (MoveInput.coords (JVal.int 0) (JVal.int 0))).1.board
      = (move (initState defaultConfig)
          (MoveInput.coords (JVal.int 0) (JVal.int 0))).1.moveCount :=
  c6_move_count_invariant _ (Reachable.mv _ (Reachable.init defaultConfig (by decide)))

/-! ### Claim C7: turn cycling -/

theorem getD_default_eq {α : Type} (l : List α) (i : Nat) (d1 d2 : α) (h : i < l.length) :
    l.getD i d1 = l.getD i d2 := by
  induction l generalizing i with
  | nil => simp at h
  | cons x xs ih =>
    cases i with
    | zero => rfl
    | succ n => exact ih n (by simpa using h)

theorem validateConfig_inv (cfg : Config) (h : validateConfig cfg = none) :
    (3 ≤ cfg.boardSize ∧ cfg.boardSize ≤ 10) ∧ 2 ≤ cfg.players.length ∧
    cfg.players.Nodup ∧ cfg.startingPlayer ∈ cfg.players := by
  unfold validateConfig at h
  split_ifs at h with h1 h2 h3 h4 h5 h6 <;>
    try exact Option.noConfusion h
  exact ⟨h1, by omega, h4, by simpa using h6⟩

theorem findIdx_beq_of_mem (l : List String) (a : String) (ha : a ∈ l) :
    l.findIdx (· == a) < l.length ∧ (∀ d, l.getD (l.findIdx (· == a)) d = a) := by
  induction l with
  | nil => simp at ha
  | cons x xs ih =>
    by_cases hx : x = a
    · subst hx
      refine ⟨?_, ?_⟩
      · simp [List.findIdx_cons]
      · intro d
        simp [List.findIdx_cons]
    · have hxa : (x == a) = false := by simp [hx]
      have ha2 : a ∈ xs := by
        rcases List.mem_cons.mp ha with h1 | h1
        · exact absurd h1.symm hx
        · exact h1
      obtain ⟨ih1, ih2⟩ := ih ha2
      refine ⟨?_, ?_⟩
      · simp only [List.findIdx_cons, hxa, cond_false]
        simpa using ih1
      · intro d
        simp only [List.findIdx_cons, hxa, cond_false]
        exact ih2 d

theorem findIdx?_beq_aux (l : List String) (hl : l.Nodup) :
    ∀ (k : Nat), k < l.length → ∀ (s : Nat),
      List.findIdx? (fun x => x == l.getD k "") l s = some (s + k) := by
  induction l with
  | nil =>
    intro k hk
    simp at hk
  | cons x xs ih =>
    intro k hk s
    rcases List.nodup_cons.mp hl with ⟨hx, hnd⟩
    cases k with
    | zero =>
      show (if (x == x) = true then some s
          else List.findIdx? (fun y => y == x) xs (s + 1)) = some (s + 0)
      rw [if_pos (by simp), Nat.add_zero]
    | succ n =>
      have hn : n < xs.length := by simpa using hk
      have hxne : (x == xs.getD n "") = false := by
        simp only [beq_eq_false_iff_ne, ne_eq]
        intro hEq
        exact hx (hEq ▸ getD_mem_of_lt xs n "" hn)
      show (if (x == xs.getD n "") = true then some s
          else List.findIdx? (fun y => y == xs.getD n "") xs (s + 1))
        = some (s + (n + 1))
      rw [hxne, if_neg (by simp : ¬ (false = true))]
      rw [ih hnd n hn (s + 1)]
      congr 1
      omega

theorem findIdx?_beq_of_nodup (l : List String) (hl : l.Nodup) (k : Nat)
    (hk : k < l.length) :
    l.findIdx? (· == l.getD k "") = some k := by
  have h0 := findIdx?_beq_aux l hl k hk 0
  simpa using h0

theorem switchPlayer_currentPlayer_getD (g : GameState) (k : Nat)
    (hnd : g.config.players.Nodup) (hk : k < g.config.players.length)
    (hcur : g.currentPlayer = g.config.players.getD k "") :
    (switchPlayer g).currentPlayer =
      g.config.players.getD ((k + 1) % g.config.players.length) g.currentPlayer := by
  unfold switchPlayer
  dsimp only
  rw [hcur, findIdx?_beq_of_nodup g.config.players hnd k hk]

theorem switchPlayer_turn (y : GameState) (i0 cnt : Nat)
    (hnd : y.config.players.Nodup) (hP : 2 ≤ y.config.players.length)
    (hcur : y.currentPlayer = y.config.players.getD
      ((i0 + cnt) % y.config.players.length) "") :
    (switchPlayer y).currentPlayer
      = y.config.players.getD ((i0 + (cnt + 1)) % y.config.players.length) "" := by
  have hlen : 0 < y.config.players.length := by omega
  have hk : (i0 + cnt) % y.config.players.length < y.config.players.length :=
    Nat.mod_lt _ hlen
  rw [switchPlayer_currentPlayer_getD y _ hnd hk hcur]
  rw [Nat.mod_add_mod]
  have h2 : (i0 + cnt + 1) % y.config.players.length < y.config.players.length :=
    Nat.mod_lt _ hlen
  exact getD_default_eq _ _ _ "" h2

theorem ite_switch_turn (g y : GameState) (i0 : Nat)
    (hyc : y.config = g.config) (hypl : y.currentPlayer = g.currentPlayer)
    (hnd : g.config.players.Nodup) (hP : 2 ≤ g.config.players.length)
    (hcur : g.currentPlayer = g.config.players.getD
      ((i0 + g.moveCount) % g.config.players.length) "") :
    (if y.gameStatus = GameStatus.ongoing then switchPlayer y else y).gameStatus
        = GameStatus.ongoing →
      (if y.gameStatus = GameStatus.ongoing then switchPlayer y else y).currentPlayer
        = g.config.players.getD ((i0 + (g.moveCount + 1)) % g.config.players.length) "" := by
  intro hong
  by_cases hst : y.gameStatus = GameStatus.ongoing
  · rw [if_pos hst]
    have hstep := switchPlayer_turn y i0 g.moveCount
        (by rw [hyc]; exact hnd) (by rw [hyc]; exact hP)
        (by rw [hypl, hyc]; exact hcur)
    rw [hstep, hyc]
  · rw [if_neg hst] at hong
    exact absurd hong hst

theorem executeMove_turn (g : GameState) (r c : Nat)
    (hnd : g.config.players.Nodup) (hP : 2 ≤ g.config.players.length)
    (hcur : g.currentPlayer = g.config.players.getD
      ((startOffset g.config + g.moveCount) % g.config.players.length) "") :
    (executeMove g r c).1.config = g.config ∧
    (executeMove g r c).1.moveCount = g.moveCount + 1 ∧
    ((executeMove g r c).1.gameStatus = GameStatus.ongoing →
      (executeMove g r c).1.currentPlayer = g.config.players.getD
        ((startOffset g.config + (g.moveCount + 1)) % g.config.players.length) "") := by
  refine ⟨executeMove_config g r c, executeMove_moveCount g r c, ?_⟩
  rw [executeMove_fst_eq]
  dsimp only
  refine ite_switch_turn g _ (startOffset g.config) ?_ ?_ hnd hP hcur
  · rw [updateGameStatus_config]
  · rw [updateGameStatus_currentPlayer]

theorem applyMoves_turn (ms : List (Nat × Nat)) :
    ∀ g g' : GameState, validateConfig g.config = none →
      (g.gameStatus = GameStatus.ongoing →
        g.currentPlayer = g.config.players.getD
          ((startOffset g.config + g.moveCount) % g.config.players.length) "") →
      applyMoves g ms = some g' →
      g'.config = g.config ∧ g'.moveCount = g.moveCount + ms.length ∧
      (g'.gameStatus = GameStatus.ongoing →
        g'.currentPlayer = g.config.players.getD
          ((startOffset g.config + g'.moveCount) % g.config.players.length) "") := by
  induction ms with
  | nil =>
    intro g g' hv hinv happ
    unfold applyMoves at happ
    obtain rfl := Option.some_inj.mp happ
    exact ⟨rfl, by simp, hinv⟩
  | cons m tl ih =>
    intro g g' hv hinv happ
    obtain ⟨r, c⟩ := m
    unfold applyMoves at happ
    dsimp only at happ
    by_cases hs : (move g (.coords (.int (r : Int)) (.int (c : Int)))).2.success = true
    · rw [if_pos hs] at happ
      obtain ⟨hong0, rr, cc, -, -, -, heq⟩ := move_success_inv g _ hs
      obtain ⟨-, hP2, hnd, -⟩ := validateConfig_inv g.config hv
      have hcur := hinv hong0
      have ht := executeMove_turn g rr cc hnd hP2 hcur
      rw [← heq] at ht
      obtain ⟨hc1, hm1, hi1⟩ := ht
      have ihg := ih (move g (.coords (.int (r : Int)) (.int (c : Int)))).1 g'
          (by rw [hc1]; exact hv)
          (by intro hong1; rw [hc1, hm1]; exact hi1 hong1) happ
      obtain ⟨ihc, ihm, ihi⟩ := ihg
      refine ⟨by rw [ihc, hc1], by rw [ihm, hm1, List.length_cons]; omega, ?_⟩
      intro hong
      have hfin := ihi hong
      rw [hfin, hc1]
    · rw [if_neg hs] at happ
      exact absurd happ (by simp)

/-- C7: with a valid configuration of P players, after N successful moves
from a fresh engine with the game still ongoing, the current player is
`players[(startOffset + N) mod P]`, where `startOffset` is the starting
player's index in the configured order (0 when `startingPlayer = players[0]`). -/
theorem c7_turn_cycling (cfg : Config) (ms : List (Nat × Nat)) (g' : GameState)
    (hv : validateConfig cfg = none)
    (happ : applyMoves (initState cfg) ms = some g')
    (hong : g'.gameStatus = GameStatus.ongoing) :
    g'.currentPlayer =
      cfg.players.getD ((startOffset cfg + ms.length) % cfg.players.length) "" := by
  obtain ⟨-, hP2, hnd, hsmem⟩ := validateConfig_inv cfg hv
  have hbase : (initState cfg).gameStatus = GameStatus.ongoing →
      (initState cfg).currentPlayer = (initState cfg).config.players.getD
        ((startOffset (initState cfg).config + (initState cfg).moveCount)
          % (initState cfg).config.players.length) "" := by
    intro _
    show cfg.startingPlayer = cfg.players.getD ((startOffset cfg + 0) % cfg.players.length) ""
    obtain ⟨hlt, hgd⟩ := findIdx_beq_of_mem cfg.players cfg.startingPlayer hsmem
    rw [Nat.add_zero]
    unfold startOffset
    rw [Nat.mod_eq_of_lt hlt]
    exact (hgd "").symm
  obtain ⟨hc, hm, hi⟩ := applyMoves_turn ms (initState cfg) g' hv hbase happ
  have hfin := hi hong
  rw [hfin]
  show cfg.players.getD ((startOffset cfg + g'.moveCount) % cfg.players.length) "" = _
  rw [hm]
  show cfg.players.getD ((startOffset cfg + (0 + ms.length)) % cfg.players.length) "" = _
  rw [Nat.zero_add]

/-- Witness for C7: one move from a fresh default game; the current player is
`players[(0 + 1) mod 2] = "O"`. -/
theorem c7_turn_cycling_witness :
    (move (initState defaultConfig) (MoveInput.coords (JVal.int 0) (JVal.int 0))).1.currentPlayer
      = defaultConfig.players.getD
          ((startOffset defaultConfig + [((0 : Nat), (0 : Nat))].length)
            % defaultConfig.players.length) "" :=
  c7_turn_cycling defaultConfig [(0, 0)]
    (move (initState defaultConfig) (MoveInput.coords (JVal.int 0) (JVal.int 0))).1
    (by decide) (by rfl) (by decide)

/-! ### Claim C2: canonicity of the status fields and replay machinery -/

theorem updateGameStatus_eq_self (y : GameState)
    (h : match checkWin y.config y.board with
      | some wl => y.gameStatus = GameStatus.finished ∧ y.winner = some wl.1 ∧
          y.winningLine = some wl.2
      | none =>
        if countEmptyCells y.board = 0 then
          y.gameStatus = GameStatus.draw ∧ y.winner = none ∧ y.winningLine = none
        else
          y.gameStatus = GameStatus.ongoing ∧ y.winner = none ∧ y.winningLine = none) :
    updateGameStatus y = y := by
  unfold updateGameStatus
  cases hcw : checkWin y.config y.board with
  | some wl =>
    rw [hcw] at h
    obtain ⟨h1, h2, h3⟩ := h
    obtain ⟨b, cp, mh, gs, w, wl2, mc, rs, cfg⟩ := y
    dsimp only at h1 h2 h3 ⊢
    rw [h1, h2, h3]
  | none =>
    rw [hcw] at h
    by_cases he : countEmptyCells y.board = 0
    · rw [if_pos he] at h
      rw [if_pos he]
      obtain ⟨h1, h2, h3⟩ := h
      obtain ⟨b, cp, mh, gs, w, wl2, mc, rs, cfg⟩ := y
      dsimp only at h1 h2 h3 ⊢
      rw [h1, h2, h3]
    · rw [if_neg he] at h
      rw [if_neg he]
      obtain ⟨h1, h2, h3⟩ := h
      obtain ⟨b, cp, mh, gs, w, wl2, mc, rs, cfg⟩ := y
      dsimp only at h1 h2 h3 ⊢
      rw [h1, h2, h3]

theorem canonical_status_inv (y : GameState) (h : Canonical y) :
    match checkWin y.config y.board with
    | some wl => y.gameStatus = GameStatus.finished ∧ y.winner = some wl.1 ∧
        y.winningLine = some wl.2
    | none =>
      if countEmptyCells y.board = 0 then
        y.gameStatus = GameStatus.draw ∧ y.winner = none ∧ y.winningLine = none
      else
        y.gameStatus = GameStatus.ongoing ∧ y.winner = none ∧ y.winningLine = none := by
  unfold Canonical updateGameStatus at h
  cases hcw : checkWin y.config y.board with
  | some wl =>
    rw [hcw] at h
    obtain ⟨w, l⟩ := wl
    exact ⟨(congrArg GameState.gameStatus h).symm, (congrArg GameState.winner h).symm,
      (congrArg GameState.winningLine h).symm⟩
  | none =>
    rw [hcw] at h
    by_cases he : countEmptyCells y.board = 0
    · rw [if_pos he] at h
      rw [if_pos he]
      exact ⟨(congrArg GameState.gameStatus h).symm, (congrArg GameState.winner h).symm,
        (congrArg GameState.winningLine h).symm⟩
    · rw [if_neg he] at h
      rw [if_neg he]
      exact ⟨(congrArg GameState.gameStatus h).symm, (congrArg GameState.winner h).symm,
        (congrArg GameState.winningLine h).symm⟩

theorem updateGameStatus_idem (z : GameState) :
    updateGameStatus (updateGameStatus z) = updateGameStatus z := by
  apply updateGameStatus_eq_self
  rw [updateGameStatus_board, updateGameStatus_config]
  cases hcw : checkWin z.config z.board with
  | some wl =>
    obtain ⟨w, l⟩ := wl
    have hz : updateGameStatus z = { z with
        gameStatus := GameStatus.finished,
        winner := some w,
        winningLine := some l } := by
      unfold updateGameStatus
      rw [hcw]
    rw [hz]
    exact ⟨rfl, rfl, rfl⟩
  | none =>
    by_cases he : countEmptyCells z.board = 0
    · have hz : updateGameStatus z = { z with
          gameStatus := GameStatus.draw,
          winner := none,
          winningLine := none } := by
        unfold updateGameStatus
        rw [hcw, if_pos he]
      rw [if_pos he, hz]
      exact ⟨rfl, rfl, rfl⟩
    · have hz : updateGameStatus z = { z with
          gameStatus := GameStatus.ongoing,
          winner := none,
          winningLine := none } := by
        unfold updateGameStatus
        rw [hcw, if_neg he]
      rw [if_neg he, hz]
      exact ⟨rfl, rfl, rfl⟩

theorem canonical_switchPlayer (y : GameState) (h : Canonical y) :
    Canonical (switchPlayer y) := by
  unfold Canonical
  apply updateGameStatus_eq_self
  rw [switchPlayer_board, switchPlayer_config]
  have hc := canonical_status_inv y h
  cases hcw : checkWin y.config y.board with
  | some wl =>
    rw [hcw] at hc
    exact ⟨by rw [switchPlayer_gameStatus]; exact hc.1,
      by rw [switchPlayer_winner]; exact hc.2.1,
      by rw [switchPlayer_winningLine]; exact hc.2.2⟩
  | none =>
    rw [hcw] at hc
    by_cases he : countEmptyCells y.board = 0
    · rw [if_pos he] at hc
      rw [if_pos he]
      exact ⟨by rw [switchPlayer_gameStatus]; exact hc.1,
        by rw [switchPlayer_winner]; exact hc.2.1,
        by rw [switchPlayer_winningLine]; exact hc.2.2⟩
    · rw [if_neg he] at hc
      rw [if_neg he]
      exact ⟨by rw [switchPlayer_gameStatus]; exact hc.1,
        by rw [switchPlayer_winner]; exact hc.2.1,
        by rw [switchPlayer_winningLine]; exact hc.2.2⟩

theorem canonical_executeMove (g : GameState) (r c : Nat) :
    Canonical (executeMove g r c).1 := by
  rw [executeMove_fst_eq]
  dsimp only
  split
  · exact canonical_switchPlayer _ (updateGameStatus_idem _)
  · exact updateGameStatus_idem _

theorem updateGameStatus_fields_congr (x y : GameState) (hb : x.board = y.board)
    (hc : x.config = y.config) :
    (updateGameStatus x).gameStatus = (updateGameStatus y).gameStatus ∧
    (updateGameStatus x).winner = (updateGameStatus y).winner ∧
    (updateGameStatus x).winningLine = (updateGameStatus y).winningLine := by
  unfold updateGameStatus
  rw [hb, hc]
  cases checkWin y.config y.board with
  | some wl => exact ⟨rfl, rfl, rfl⟩
  | none =>
    by_cases he : countEmptyCells y.board = 0
    · rw [if_pos he, if_pos he]
      exact ⟨rfl, rfl, rfl⟩
    · rw [if_neg he, if_neg he]
      exact ⟨rfl, rfl, rfl⟩

theorem checkWin_mkBoard (cfg : Config) :
    checkWin cfg (mkBoard cfg.boardSize) = none := by
  unfold checkWin
  dsimp only
  refine (findSome?_congr _ _ (fun _ => none) ?_).trans (findSome?_const_none _)
  intro r hr
  refine (findSome?_congr _ _ (fun _ => none) ?_).trans (findSome?_const_none _)
  intro c hc
  rw [getCell_mkBoard]

theorem countEmptyCells_mkBoard_pos (n : Nat) (hn : 0 < n) :
    0 < countEmptyCells (mkBoard n) := by
  unfold countEmptyCells mkBoard
  have hmem : (none : Option String) ∈
      (List.replicate n (List.replicate n (none : Option String))).flatten := by
    rw [List.mem_flatten]
    exact ⟨List.replicate n none, List.mem_replicate.mpr ⟨by omega, rfl⟩,
      List.mem_replicate.mpr ⟨by omega, rfl⟩⟩
  have hmf : (none : Option String) ∈
      ((List.replicate n (List.replicate n (none : Option String))).flatten.filter
        (fun cell => cell == none)) := by
    rw [List.mem_filter]
    exact ⟨hmem, by simp⟩
  exact List.length_pos.mpr (List.ne_nil_of_mem hmf)

theorem canonical_initState (cfg : Config) (hsz : 0 < cfg.boardSize) :
    Canonical (initState cfg) := by
  unfold Canonical updateGameStatus
  rw [show (initState cfg).config = cfg from rfl,
    show (initState cfg).board = mkBoard cfg.boardSize from rfl]
  rw [checkWin_mkBoard]
  rw [if_neg (by have := countEmptyCells_mkBoard_pos cfg.boardSize hsz; omega)]
  rfl

theorem move_success_redoStack (g : GameState) (input : MoveInput)
    (hs : (move g input).2.success = true) :
    (move g input).1.redoStack = [] := by
  obtain ⟨-, r, c, -, -, -, heq⟩ := move_success_inv g input hs
  rw [heq]
  exact executeMove_fst_redoStack g r c

theorem shape_move_success (g : GameState) (input : MoveInput)
    (hs : (move g input).2.success = true) (hsh : Shape g.config g.board) :
    Shape (move g input).1.config (move g input).1.board := by
  obtain ⟨-, r, c, -, -, -, heq⟩ := move_success_inv g input hs
  rw [heq, executeMove_board, executeMove_config]
  exact shape_setCell g.config g.board r c _ hsh

theorem canonical_move_success (g : GameState) (input : MoveInput)
    (hs : (move g input).2.success = true) :
    Canonical (move g input).1 := by
  obtain ⟨-, r, c, -, -, -, heq⟩ := move_success_inv g input hs
  rw [heq]
  exact canonical_executeMove g r c

theorem move_core_congr (g1 g2 : GameState) (input : MoveInput)
    (hcore : g1.core = g2.core) :
    (move g1 input).1.core = (move g2 input).1.core
      ∧ (move g1 input).2 = (move g2 input).2 := by
  obtain ⟨b1, cp1, mh1, gs1, w1, wl1, mc1, rs1, cfg1⟩ := g1
  obtain ⟨b2, cp2, mh2, gs2, w2, wl2, mc2, rs2, cfg2⟩ := g2
  unfold GameState.core at hcore
  dsimp only at hcore
  obtain ⟨rfl, rfl, rfl, rfl, rfl, rfl, rfl, rfl⟩ := Core.mk.injEq .. |>.mp hcore
  unfold move
  dsimp only
  cases hp : parseMove cfg1 input with
  | error e => exact ⟨rfl, rfl⟩
  | ok rc =>
    obtain ⟨jr, jc⟩ := rc
    dsimp only
    cases hv : validateMove cfg1 b1 gs1 jr jc with
    | some e => exact ⟨rfl, rfl⟩
    | none =>
      cases jr with
      | int a =>
        cases jc with
        | int b =>
          dsimp only
          constructor
          · rfl
          · rfl
        | other => exact ⟨rfl, rfl⟩
      | other => exact ⟨rfl, rfl⟩

theorem move_coords_of_executeMove (g : GameState) (r c : Nat)
    (hr : r < g.config.boardSize) (hc : c < g.config.boardSize)
    (hempty : getCell g.board r c = none) (hong : g.gameStatus = GameStatus.ongoing) :
    move g (.coords (.int (r : Int)) (.int (c : Int))) = executeMove g r c := by
  have hval : validateMove g.config g.board g.gameStatus
      (.int (r : Int)) (.int (c : Int)) = none := by
    unfold validateMove
    dsimp only
    rw [if_neg (by push_neg; refine ⟨by omega, by omega, by omega, by omega⟩)]
    rw [show ((r : Int)).toNat = r by omega, show ((c : Int)).toNat = c by omega, hempty]
    rw [if_neg (not_not_intro hong)]
  unfold move parseMove
  dsimp only
  rw [hval]
  dsimp only
  rw [show ((r : Int)).toNat = r by omega, show ((c : Int)).toNat = c by omega]

theorem core_proj (x y : GameState) (h : x.core = y.core) :
    x.board = y.board ∧ x.currentPlayer = y.currentPlayer ∧ x.moveHistory = y.moveHistory ∧
    x.gameStatus = y.gameStatus ∧ x.winner = y.winner ∧ x.winningLine = y.winningLine ∧
    x.moveCount = y.moveCount ∧ x.config = y.config :=
  ⟨congrArg Core.board h, congrArg Core.currentPlayer h, congrArg Core.moveHistory h,
    congrArg Core.gameStatus h, congrArg Core.winner h, congrArg Core.winningLine h,
    congrArg Core.moveCount h, congrArg Core.config h⟩

theorem core_ext (x y : GameState) (h1 : x.board = y.board)
    (h2 : x.currentPlayer = y.currentPlayer) (h3 : x.moveHistory = y.moveHistory)
    (h4 : x.gameStatus = y.gameStatus) (h5 : x.winner = y.winner)
    (h6 : x.winningLine = y.winningLine) (h7 : x.moveCount = y.moveCount)
    (h8 : x.config = y.config) : x.core = y.core := by
  unfold GameState.core
  rw [h1, h2, h3, h4, h5, h6, h7, h8]

theorem updateGameStatus_as_canonical (x g : GameState) (hcan : Canonical g)
    (hb : x.board = g.board) (hc : x.config = g.config) :
    (updateGameStatus x).gameStatus = g.gameStatus ∧
    (updateGameStatus x).winner = g.winner ∧
    (updateGameStatus x).winningLine = g.winningLine := by
  obtain ⟨h1, h2, h3⟩ := updateGameStatus_fields_congr x g hb hc
  unfold Canonical at hcan
  exact ⟨h1.trans (congrArg GameState.gameStatus hcan),
    h2.trans (congrArg GameState.winner hcan),
    h3.trans (congrArg GameState.winningLine hcan)⟩

/-- Undoing right after a successful move restores every non-redo-stack field
and pushes the move's record onto the redo stack, for any state sharing the
post-move core. -/
theorem undo_of_move_success (g : GameState) (input : MoveInput)
    (hsh : Shape g.config g.board) (hcan : Canonical g)
    (hs : (move g input).2.success = true)
    (h : GameState) (hcore : h.core = (move g input).1.core) :
    (undo h).2.success = true ∧ (undo h).1.core = g.core ∧
      ∃ rec1 : MoveRecord, (move g input).1.moveHistory = g.moveHistory ++ [rec1] ∧
        (undo h).1.redoStack = rec1 :: h.redoStack := by
  obtain ⟨hong, r, c, hr, hc, hempty, heq⟩ := move_success_inv g input hs
  rw [heq] at hcore ⊢
  have hrb : r < g.board.length := by rw [hsh.1]; exact hr
  have hcb : c < (g.board.getD r []).length := by
    rw [hsh.2 _ (getD_mem_of_lt g.board r [] hrb)]
    exact hc
  have hB : h.board = setCell g.board r c (some g.currentPlayer) := by
    have h1 := congrArg Core.board hcore
    have h2 : h.board = (executeMove g r c).1.board := h1
    rw [h2, executeMove_board]
  have hMH : h.moveHistory = g.moveHistory ++
      [⟨r, c, g.currentPlayer, toAlgebraic r c, g.moveCount + 1⟩] := by
    have h1 := congrArg Core.moveHistory hcore
    have h2 : h.moveHistory = (executeMove g r c).1.moveHistory := h1
    rw [h2, executeMove_moveHistory]
  have hMC : h.moveCount = g.moveCount + 1 := by
    have h1 := congrArg Core.moveCount hcore
    have h2 : h.moveCount = (executeMove g r c).1.moveCount := h1
    rw [h2, executeMove_moveCount]
  have hCFG : h.config = g.config := by
    have h1 := congrArg Core.config hcore
    have h2 : h.config = (executeMove g r c).1.config := h1
    rw [h2, executeMove_config]
  have hlast : h.moveHistory.getLast? =
      some ⟨r, c, g.currentPlayer, toAlgebraic r c, g.moveCount + 1⟩ := by
    rw [hMH]
    exact List.getLast?_concat _
  obtain ⟨hfst, hsucc⟩ := undo_fst_of_getLast h _ hlast
  have hboard : (undo h).1.board = g.board := by
    rw [hfst]
    dsimp only
    rw [updateGameStatus_board]
    dsimp only
    rw [hB]
    exact setCell_setCell_none g.board r c _ hrb hcb hempty
  have hbG1 : ({ h with
      moveHistory := h.moveHistory.dropLast,
      board := setCell h.board r c none,
      currentPlayer := g.currentPlayer,
      moveCount := h.moveCount - 1 } : GameState).board = g.board := by
    dsimp only
    rw [hB]
    exact setCell_setCell_none g.board r c _ hrb hcb hempty
  have hcur : (undo h).1.currentPlayer = g.currentPlayer := by
    rw [hfst]
    dsimp only
    rw [updateGameStatus_currentPlayer]
  have hhist : (undo h).1.moveHistory = g.moveHistory := by
    rw [hfst]
    dsimp only
    rw [updateGameStatus_moveHistory]
    dsimp only
    rw [hMH]
    exact List.dropLast_concat
  have hcount : (undo h).1.moveCount = g.moveCount := by
    rw [hfst]
    dsimp only
    rw [updateGameStatus_moveCount]
    dsimp only
    rw [hMC]
    omega
  have hconfig : (undo h).1.config = g.config := by
    rw [hfst]
    dsimp only
    rw [updateGameStatus_config]
    dsimp only
    exact hCFG
  have hstat : (undo h).1.gameStatus = g.gameStatus ∧ (undo h).1.winner = g.winner ∧
      (undo h).1.winningLine = g.winningLine := by
    rw [hfst]
    dsimp only
    exact updateGameStatus_as_canonical _ g hcan hbG1 (by dsimp only; exact hCFG)
  have hrs : (undo h).1.redoStack =
      (⟨r, c, g.currentPlayer, toAlgebraic r c, g.moveCount + 1⟩ : MoveRecord)
        :: h.redoStack := by
    rw [hfst]
    dsimp only
    rw [updateGameStatus_redoStack]
  refine ⟨hsucc, ?_, ⟨r, c, g.currentPlayer, toAlgebraic r c, g.moveCount + 1⟩,
    executeMove_moveHistory g r c, hrs⟩
  exact core_ext _ _ hboard hcur hhist hstat.1 hstat.2.1 hstat.2.2 hcount hconfig

theorem undoAll_succ_back (n : Nat) : ∀ h : GameState,
    undoAll (n + 1) h = (undoAll n h).bind (undoAll 1) := by
  induction n with
  | zero =>
    intro h
    rfl
  | succ m ihm =>
    intro h
    show (if (undo h).2.success then undoAll (m + 1) (undo h).1 else none)
      = ((if (undo h).2.success then undoAll m (undo h).1 else none).bind (undoAll 1))
    by_cases hs : (undo h).2.success = true
    · rw [if_pos hs, if_pos hs]
      exact ihm (undo h).1
    · rw [if_neg (by simpa using hs), if_neg (by simpa using hs)]
      rfl

/-- The undo chain: undoing as many times as there were moves succeeds,
restores the pre-move core, and leaves the created move records on the redo
stack in replay order. -/
theorem undo_chain (ms : List (Nat × Nat)) :
    ∀ g g' : GameState, Shape g.config g.board → Canonical g →
      applyMoves g ms = some g' →
      ∀ h : GameState, h.core = g'.core →
      ∃ h' : GameState, undoAll ms.length h = some h' ∧ h'.core = g.core ∧
        ∃ ext : List MoveRecord, g'.moveHistory = g.moveHistory ++ ext ∧
          h'.redoStack = ext ++ h.redoStack := by
  induction ms with
  | nil =>
    intro g g' hsh hcan happ h hcore
    unfold applyMoves at happ
    obtain rfl := Option.some_inj.mp happ
    exact ⟨h, rfl, hcore, [], by simp, by simp⟩
  | cons m tl ih =>
    intro g g' hsh hcan happ h hcore
    obtain ⟨r, c⟩ := m
    unfold applyMoves at happ
    dsimp only at happ
    by_cases hs : (move g (.coords (.int (r : Int)) (.int (c : Int)))).2.success = true
    · rw [if_pos hs] at happ
      have hsh1 := shape_move_success g _ hs hsh
      have hcan1 := canonical_move_success g _ hs
      obtain ⟨h1, hua, hcore1, ext, hext, hrs⟩ :=
        ih (move g (.coords (.int (r : Int)) (.int (c : Int)))).1 g' hsh1 hcan1 happ h hcore
      obtain ⟨hus, hcore2, rec1, hrec, hrs2⟩ :=
        undo_of_move_success g _ hsh hcan hs h1 hcore1
      refine ⟨(undo h1).1, ?_, hcore2, rec1 :: ext, ?_, ?_⟩
      · show undoAll (tl.length + 1) h = some (undo h1).1
        rw [undoAll_succ_back tl.length h, hua]
        show undoAll 1 h1 = some (undo h1).1
        show (if (undo h1).2.success then undoAll 0 (undo h1).1 else none) = some (undo h1).1
        rw [if_pos hus]
        rfl
      · rw [hext, hrec, List.append_assoc]
        rfl
      · rw [hrs2, hrs]
        rfl
    · rw [if_neg hs] at happ
      exact absurd happ (by simp)

theorem applyMoves_redoStack_nil (ms : List (Nat × Nat)) :
    ∀ g g' : GameState, g.redoStack = [] → applyMoves g ms = some g' →
      g'.redoStack = [] := by
  induction ms with
  | nil =>
    intro g g' hg happ
    unfold applyMoves at happ
    obtain rfl := Option.some_inj.mp happ
    exact hg
  | cons m tl ih =>
    intro g g' hg happ
    obtain ⟨r, c⟩ := m
    unfold applyMoves at happ
    dsimp only at happ
    by_cases hs : (move g (.coords (.int (r : Int)) (.int (c : Int)))).2.success = true
    · rw [if_pos hs] at happ
      exact ih _ g' (move_success_redoStack g _ hs) happ
    · rw [if_neg hs] at happ
      exact absurd happ (by simp)

theorem applyMoves_history_mono (ms : List (Nat × Nat)) :
    ∀ g g' : GameState, applyMoves g ms = some g' →
      ∃ ext : List MoveRecord, g'.moveHistory = g.moveHistory ++ ext := by
  induction ms with
  | nil =>
    intro g g' happ
    unfold applyMoves at happ
    obtain rfl := Option.some_inj.mp happ
    exact ⟨[], by simp⟩
  | cons m tl ih =>
    intro g g' happ
    obtain ⟨r, c⟩ := m
    unfold applyMoves at happ
    dsimp only at happ
    by_cases hs : (move g (.coords (.int (r : Int)) (.int (c : Int)))).2.success = true
    · rw [if_pos hs] at happ
      obtain ⟨ext2, hext2⟩ := ih _ g' happ
      obtain ⟨-, rr, cc, -, -, -, heq⟩ := move_success_inv g _ hs
      refine ⟨⟨rr, cc, g.currentPlayer, toAlgebraic rr cc, g.moveCount + 1⟩ :: ext2, ?_⟩
      rw [hext2, heq, executeMove_moveHistory, List.append_assoc]
      rfl
    · rw [if_neg hs] at happ
      exact absurd happ (by simp)

/-- Claim C2 as stated is false on the code: play (0,0) and (1,1) on a fresh
default game, undo both, then redo twice.  The first redo replays (0,0) but —
being an ordinary move — clears the redo stack, so the second redo fails and
the original two-move board is never reproduced. -/
theorem c2_counterexample :
    (redo (redo (undo (undo (move (move (initState defaultConfig)
        (MoveInput.coords (JVal.int 0) (JVal.int 0))).1
        (MoveInput.coords (JVal.int 1) (JVal.int 1))).1).1).1).1).2.success = false ∧
    (redo (redo (undo (undo (move (move (initState defaultConfig)
        (MoveInput.coords (JVal.int 0) (JVal.int 0))).1
        (MoveInput.coords (JVal.int 1) (JVal.int 1))).1).1).1).1).1.board ≠
      (move (move (initState defaultConfig)
        (MoveInput.coords (JVal.int 0) (JVal.int 0))).1
        (MoveInput.coords (JVal.int 1) (JVal.int 1))).1.board := by
  decide

/-- C2 (amended): for every sequence of successful moves from a fresh engine
with a valid configuration, undo() repeated back to the start succeeds and
yields the initial all-empty board, the starting player, empty history,
status Ongoing and move count 0, with every created move record waiting on
the redo stack in replay order; a single redo() then reproduces exactly the
board, move history, status, current player and move count that held after
the first move — but the replayed move clears the redo stack, so no further
undone move remains available for redo (rather than all of them, as the
original claim says). -/
theorem c2_amended_undo_redo_round_trip (cfg : Config) (ms : List (Nat × Nat))
    (g' : GameState) (hv : validateConfig cfg = none)
    (happ : applyMoves (initState cfg) ms = some g') :
    ∃ u : GameState, undoAll ms.length g' = some u ∧
      u.board = mkBoard cfg.boardSize ∧ u.currentPlayer = cfg.startingPlayer ∧
      u.moveHistory = [] ∧ u.gameStatus = GameStatus.ongoing ∧ u.moveCount = 0 ∧
      u.redoStack = g'.moveHistory ∧
      ∀ m1 tl, ms = m1 :: tl →
        (redo u).2.success = true ∧ (redo u).1.redoStack = [] ∧
        ∃ g1 : GameState, applyMoves (initState cfg) [m1] = some g1 ∧
          (redo u).1.board = g1.board ∧ (redo u).1.moveHistory = g1.moveHistory ∧
          (redo u).1.gameStatus = g1.gameStatus ∧
          (redo u).1.currentPlayer = g1.currentPlayer ∧
          (redo u).1.moveCount = g1.moveCount := by
  have hsz : 0 < cfg.boardSize := by
    obtain ⟨⟨h3, -⟩, -⟩ := validateConfig_inv cfg hv
    omega
  have hsh0 : Shape (initState cfg).config (initState cfg).board := shape_mkBoard cfg
  have hcan0 : Canonical (initState cfg) := canonical_initState cfg hsz
  obtain ⟨u, hua, hcoreu, ext, hext, hrs⟩ :=
    undo_chain ms (initState cfg) g' hsh0 hcan0 happ g' rfl
  have hrs0 : g'.redoStack = [] := applyMoves_redoStack_nil ms (initState cfg) g' rfl happ
  have hextEq : ext = g'.moveHistory := by
    rw [hext]
    rfl
  obtain ⟨hub, hup, huh, hug, -, -, hum, -⟩ := core_proj u (initState cfg) hcoreu
  refine ⟨u, hua, hub, hup, huh, hug, hum, ?_, ?_⟩
  · rw [hrs, hrs0, hextEq]
    simp
  · intro m1 tl hms
    subst hms
    obtain ⟨r0, c0⟩ := m1
    unfold applyMoves at happ
    dsimp only at happ
    by_cases hs1 : (move (initState cfg)
        (.coords (.int (r0 : Int)) (.int (c0 : Int)))).2.success = true
    · rw [if_pos hs1] at happ
      obtain ⟨hong0, r, c, hr, hc, hempty, heq⟩ := move_success_inv (initState cfg) _ hs1
      have hg1h : (move (initState cfg)
            (.coords (.int (r0 : Int)) (.int (c0 : Int)))).1.moveHistory
          = [⟨r, c, cfg.startingPlayer, toAlgebraic r c, 1⟩] := by
        rw [heq, executeMove_moveHistory]
        rfl
      obtain ⟨ext2, hext2⟩ := applyMoves_history_mono tl _ g' happ
      have hredo : u.redoStack =
          (⟨r, c, cfg.startingPlayer, toAlgebraic r c, 1⟩ : MoveRecord) :: ext2 := by
        rw [hrs, hrs0, hextEq, hext2, hg1h]
        simp
      have hru : redo u = move ({ u with redoStack := ext2 })
          (.coords (.int (r : Int)) (.int (c : Int))) := by
        unfold redo
        rw [hredo]
      have hcoreu2 : ({ u with redoStack := ext2 } : GameState).core
          = (initState cfg).core := hcoreu
      obtain ⟨hC, hR⟩ := move_core_congr ({ u with redoStack := ext2 }) (initState cfg)
        (.coords (.int (r : Int)) (.int (c : Int))) hcoreu2
      have hrepl := move_coords_of_executeMove (initState cfg) r c hr hc hempty rfl
      have hsucc2 : (redo u).2.success = true := by
        rw [hru]
        show (move ({ u with redoStack := ext2 })
          (.coords (.int (r : Int)) (.int (c : Int)))).2.success = true
        rw [hR, hrepl]
        exact executeMove_success _ _ _
      have hrs2 : (redo u).1.redoStack = [] := by
        rw [hru]
        refine move_success_redoStack _ _ ?_
        rw [hR, hrepl]
        exact executeMove_success _ _ _
      have hcoreG1 : (redo u).1.core = (move (initState cfg)
          (.coords (.int (r0 : Int)) (.int (c0 : Int)))).1.core := by
        rw [hru]
        refine hC.trans ?_
        rw [hrepl, ← heq]
      obtain ⟨q1, q2, q3, q4, -, -, q7, -⟩ := core_proj _ _ hcoreG1
      refine ⟨hsucc2, hrs2,
        (move (initState cfg) (.coords (.int (r0 : Int)) (.int (c0 : Int)))).1,
        ?_, q1, q3, q4, q2, q7⟩
      show (if (move (initState cfg)
          (.coords (.int (r0 : Int)) (.int (c0 : Int)))).2.success then
        applyMoves (move (initState cfg)
          (.coords (.int (r0 : Int)) (.int (c0 : Int)))).1 [] else none) = some _
      rw [if_pos hs1]
      rfl
    · rw [if_neg hs1] at happ
      exact absurd happ (by simp)

/-- Witness for the amended C2: one move (0,0) on the default game, one undo,
one redo. -/
theorem c2_amended_undo_redo_round_trip_witness :
    validateConfig defaultConfig = none ∧
    (∃ u : GameState,
      undoAll [((0 : Nat), (0 : Nat))].length
          (move (initState defaultConfig)
            (MoveInput.coords (JVal.int ((0 : Nat) : Int))
              (JVal.int ((0 : Nat) : Int)))).1 = some u ∧
      u.board = mkBoard defaultConfig.boardSize ∧
      u.currentPlayer = defaultConfig.startingPlayer ∧
      u.moveHistory = [] ∧ u.gameStatus = GameStatus.ongoing ∧ u.moveCount = 0 ∧
      u.redoStack = (move (initState defaultConfig)
          (MoveInput.coords (JVal.int ((0 : Nat) : Int))
            (JVal.int ((0 : Nat) : Int)))).1.moveHistory ∧
      ∀ m1 tl, [((0 : Nat), (0 : Nat))] = m1 :: tl →
        (redo u).2.success = true ∧ (redo u).1.redoStack = [] ∧
        ∃ g1 : GameState, applyMoves (initState defaultConfig) [m1] = some g1 ∧
          (redo u).1.board = g1.board ∧ (redo u).1.moveHistory = g1.moveHistory ∧
          (redo u).1.gameStatus = g1.gameStatus ∧
          (redo u).1.currentPlayer = g1.currentPlayer ∧
          (redo u).1.moveCount = g1.moveCount) :=
  ⟨by decide, c2_amended_undo_redo_round_trip defaultConfig [(0, 0)]
    (move (initState defaultConfig)
      (MoveInput.coords (JVal.int ((0 : Nat) : Int)) (JVal.int ((0 : Nat) : Int)))).1
    (by decide) (by rfl)⟩

end TTT
